import Mathlib

/-!
Verification of the artifact integrity and policy enforcement engine in
`tools/ai_toolkit.py`.

The embedding works over codepoint lists (`List Nat`): a Python `str` is the
list of its Unicode codepoints, and `bytes` are lists of naturals below 256.
External library primitives (RSA signing and verification, SHA-256, the YAML
front-matter parser, Unicode NFKC normalization) are taken as function
parameters of the models; everything the toolkit itself computes is defined
concretely and executably.
-/

namespace AIToolkit

/-- Codepoints of a Lean string literal, used to transcribe Python string
literals into the embedding. -/
def cp (s : String) : List Nat := s.toList.map Char.toNat

/-- Python whitespace on the ASCII range: the characters accepted by
`str.isspace`, `str.strip` and the regex class `\s` (tab, LF, VT, FF, CR,
FS, GS, RS, US, space). -/
def isSp (c : Nat) : Bool :=
  c == 9 || c == 10 || c == 11 || c == 12 || c == 13 ||
  c == 28 || c == 29 || c == 30 || c == 31 || c == 32

/-- Strict lexicographic order on codepoint lists: Python `str.__lt__`. -/
def cpLt : List Nat → List Nat → Bool
  | [], [] => false
  | [], _ :: _ => true
  | _ :: _, [] => false
  | a :: as, b :: bs => Nat.blt a b || (a == b && cpLt as bs)

theorem cpLt_asymm : ∀ a b, cpLt a b = true → cpLt b a = true → False := by
  intro a
  induction a with
  | nil => intro b h1 h2; cases b <;> simp [cpLt] at h1 h2
  | cons x xs ih =>
    intro b h1 h2
    cases b with
    | nil => simp [cpLt] at h1
    | cons y ys =>
      simp only [cpLt, Bool.or_eq_true, Bool.and_eq_true, Nat.blt_eq, beq_iff_eq] at h1 h2
      rcases h1 with h1 | ⟨e1, h1⟩ <;> rcases h2 with h2 | ⟨e2, h2⟩
      · omega
      · omega
      · omega
      · exact ih ys h1 h2

theorem cpLt_trans : ∀ a b c, cpLt a b = true → cpLt b c = true → cpLt a c = true := by
  intro a
  induction a with
  | nil =>
    intro b c h1 h2
    cases b with
    | nil => simp [cpLt] at h1
    | cons y ys => cases c with
      | nil => simp [cpLt] at h2
      | cons z zs => simp [cpLt]
  | cons x xs ih =>
    intro b c h1 h2
    cases b with
    | nil => simp [cpLt] at h1
    | cons y ys =>
      cases c with
      | nil => simp [cpLt] at h2
      | cons z zs =>
        simp only [cpLt, Bool.or_eq_true, Bool.and_eq_true, Nat.blt_eq, beq_iff_eq] at h1 h2 ⊢
        rcases h1 with h1 | ⟨rfl, h1⟩ <;> rcases h2 with h2 | ⟨rfl, h2⟩
        · left; omega
        · left; omega
        · left; omega
        · right; exact ⟨rfl, ih ys zs h1 h2⟩

theorem cpLt_total_eq : ∀ a b, cpLt a b = false → cpLt b a = false → a = b := by
  intro a
  induction a with
  | nil => intro b h1 _; cases b with
    | nil => rfl
    | cons y ys => simp [cpLt] at h1
  | cons x xs ih =>
    intro b h1 h2
    cases b with
    | nil => simp [cpLt] at h2
    | cons y ys =>
      simp only [cpLt, Bool.or_eq_false_iff, Bool.and_eq_false_iff] at h1 h2
      obtain ⟨hxy, h1'⟩ := h1
      obtain ⟨hyx, h2'⟩ := h2
      have hxy' : ¬ x < y := by rw [← Nat.blt_eq]; simp [hxy]
      have hyx' : ¬ y < x := by rw [← Nat.blt_eq]; simp [hyx]
      have hxy2 : x = y := by omega
      subst hxy2
      rcases h1' with h1' | h1'
      · simp at h1'
      · rcases h2' with h2' | h2'
        · simp at h2'
        · rw [ih ys h1' h2']

/-- JSON-compatible values: the data `json.dumps` serializes. Strings are
codepoint lists; an object is its key/value pairs in insertion order (a
Python dict determines such a list; its keys are then unique). -/
inductive JValue where
  | jnull : JValue
  | jbool : Bool → JValue
  | jint : Int → JValue
  | jstr : List Nat → JValue
  | jarr : List JValue → JValue
  | jobj : List (List Nat × JValue) → JValue

/-- One lowercase hex digit, as `%x` formatting uses. -/
def hexDigitCp (n : Nat) : Nat := if n < 10 then 48 + n else 87 + n

/-- Four lowercase hex digits of a number below 0x10000 (`\uXXXX`). -/
def toHex4 (n : Nat) : List Nat :=
  [hexDigitCp (n / 4096 % 16), hexDigitCp (n / 256 % 16),
   hexDigitCp (n / 16 % 16), hexDigitCp (n % 16)]

/-- Escaping of one codepoint by `json.dumps` with its default
`ensure_ascii=True`: quote and backslash get a backslash escape, the five
control characters with shorthands get those, every other codepoint outside
printable ASCII 0x20..0x7e becomes `\uXXXX` (a surrogate pair above
0xFFFF), and printable ASCII is emitted as itself. -/
def escChar (c : Nat) : List Nat :=
  if c = 34 then [92, 34]
  else if c = 92 then [92, 92]
  else if c = 8 then [92, 98]
  else if c = 9 then [92, 116]
  else if c = 10 then [92, 110]
  else if c = 12 then [92, 102]
  else if c = 13 then [92, 114]
  else if 32 ≤ c ∧ c ≤ 126 then [c]
  else if c < 65536 then 92 :: 117 :: toHex4 c
  else 92 :: 117 :: toHex4 (55296 + (c - 65536) / 1024) ++
       92 :: 117 :: toHex4 (56320 + (c - 65536) % 1024)

/-- Concatenated image of a codepoint function over a string. -/
def cpConcat (f : Nat → List Nat) : List Nat → List Nat
  | [] => []
  | c :: rest => f c ++ cpConcat f rest

/-- Decimal digits of a natural number with a structural fuel argument:
`natCpGo fuel n` equals the digits of `n` whenever `fuel` exceeds the digit
count (recursion is on `n / 10`, which loses a digit per step). -/
def natCpGo : Nat → Nat → List Nat
  | 0, _ => []
  | fuel + 1, n => if n < 10 then [48 + n] else natCpGo fuel (n / 10) ++ [48 + n % 10]

/-- Decimal digits of a natural number, as `str()` renders it. -/
def natCp (n : Nat) : List Nat := natCpGo (n + 1) n

/-- Decimal rendering of an integer, as `str()`/`json.dumps` render it. -/
def intCp : Int → List Nat
  | Int.ofNat m => natCp m
  | Int.negSucc m => 45 :: natCp (m + 1)

/-- Key order used by `sort_keys=True`: compare the key strings with
Python's `<` (tuple comparison of `dict.items()` touches the values only
for equal keys, which a dict cannot have). -/
def kvLe (p q : List Nat × JValue) : Prop := cpLt q.1 p.1 = false

/-- Strict version of `kvLe`, total on pairs with distinct keys. -/
def kvLt (p q : List Nat × JValue) : Prop := cpLt p.1 q.1 = true

instance : DecidableRel kvLe := fun p q => by unfold kvLe; infer_instance

instance : DecidableRel kvLt := fun p q => by unfold kvLt; infer_instance

instance : IsTotal (List Nat × JValue) kvLe := by
  constructor
  intro p q
  unfold kvLe
  by_cases h : cpLt q.1 p.1 = false
  · exact Or.inl h
  · right
    rw [Bool.not_eq_false] at h
    by_contra hc
    rw [Bool.not_eq_false] at hc
    exact cpLt_asymm _ _ hc h

instance : IsTrans (List Nat × JValue) kvLe := by
  constructor
  intro p q w h1 h2
  unfold kvLe at h1 h2 ⊢
  by_contra hc
  rw [Bool.not_eq_false] at hc
  by_cases hpq : cpLt p.1 q.1 = true
  · by_cases hqw : cpLt q.1 w.1 = true
    · exact cpLt_asymm _ _ (cpLt_trans _ _ _ hpq hqw) hc
    · rw [Bool.not_eq_true] at hqw
      have hqweq := cpLt_total_eq _ _ hqw h2
      rw [hqweq] at hpq
      exact cpLt_asymm _ _ hpq hc
  · rw [Bool.not_eq_true] at hpq
    have hpqeq := cpLt_total_eq _ _ hpq h1
    rw [← hpqeq] at h2
    exact absurd hc (by simp [h2])

instance : IsAntisymm (List Nat × JValue) kvLt := by
  constructor
  intro p q h1 h2
  exact (cpLt_asymm _ _ h1 h2).elim

/-- The sort `json.dumps(..., sort_keys=True)` applies to each object's
items before serializing them. -/
def sortKV (l : List (List Nat × JValue)) : List (List Nat × JValue) :=
  l.insertionSort kvLe

mutual

/-- Recursively sort every object's items by key: the canonical shape of a
value. Serializing `sortJ v` without further sorting is exactly serializing
`v` with `sort_keys=True`. -/
def sortJ : JValue → JValue
  | JValue.jobj kvs => JValue.jobj (sortKV (sortKVals kvs))
  | JValue.jarr xs => JValue.jarr (sortJList xs)
  | v => v
termination_by structural v => v

def sortJList : List JValue → List JValue
  | [] => []
  | x :: xs => sortJ x :: sortJList xs
termination_by structural l => l

def sortKVals : List (List Nat × JValue) → List (List Nat × JValue)
  | [] => []
  | (k, v) :: rest => (k, sortJ v) :: sortKVals rest
termination_by structural l => l

end

mutual

/-- Compact serialization with separators `(',', ':')` of an
already-key-sorted value, producing the codepoints of the JSON text. -/
def serJ : JValue → List Nat
  | JValue.jnull => [110, 117, 108, 108]
  | JValue.jbool true => [116, 114, 117, 101]
  | JValue.jbool false => [102, 97, 108, 115, 101]
  | JValue.jint n => intCp n
  | JValue.jstr s => 34 :: cpConcat escChar s ++ [34]
  | JValue.jarr xs => 91 :: serList xs ++ [93]
  | JValue.jobj kvs => 123 :: serKVs kvs ++ [125]
termination_by structural v => v

def serList : List JValue → List Nat
  | [] => []
  | [x] => serJ x
  | x :: y :: xs => serJ x ++ 44 :: serList (y :: xs)
termination_by structural l => l

def serKVs : List (List Nat × JValue) → List Nat
  | [] => []
  | [(k, v)] => 34 :: cpConcat escChar k ++ [34] ++ 58 :: serJ v
  | (k, v) :: q :: rest =>
    34 :: cpConcat escChar k ++ [34] ++ 58 :: serJ v ++ 44 :: serKVs (q :: rest)
termination_by structural l => l

end

/-- UTF-8 encoding of one codepoint. -/
def utf8EncodeChar (c : Nat) : List Nat :=
  if c < 128 then [c]
  else if c < 2048 then [192 + c / 64, 128 + c % 64]
  else if c < 65536 then [224 + c / 4096, 128 + c / 64 % 64, 128 + c % 64]
  else [240 + c / 262144, 128 + c / 4096 % 64, 128 + c / 64 % 64, 128 + c % 64]

/-- UTF-8 encoding of a codepoint list (`str.encode('utf-8')`). -/
def utf8Encode (l : List Nat) : List Nat := cpConcat utf8EncodeChar l

/-- UTF-8 decoding with a structural fuel argument; each step consumes at
least one byte, so any fuel at least the byte count gives the decoding. -/
def utf8DecodeGo : Nat → List Nat → List Nat
  | 0, _ => []
  | _ + 1, [] => []
  | fuel + 1, b :: rest =>
    if b < 128 then b :: utf8DecodeGo fuel rest
    else if b < 224 then
      match rest with
      | b2 :: r2 => ((b % 32) * 64 + b2 % 64) :: utf8DecodeGo fuel r2
      | [] => []
    else if b < 240 then
      match rest with
      | b2 :: b3 :: r3 => ((b % 16) * 4096 + (b2 % 64) * 64 + b3 % 64) :: utf8DecodeGo fuel r3
      | _ => []
    else
      match rest with
      | b2 :: b3 :: b4 :: r4 =>
        ((b % 8) * 262144 + (b2 % 64) * 4096 + (b3 % 64) * 64 + b4 % 64) :: utf8DecodeGo fuel r4
      | _ => []

/-- UTF-8 decoding of a byte list (`bytes.decode('utf-8')`), defined on
well-formed sequences. -/
def utf8Decode (l : List Nat) : List Nat := utf8DecodeGo l.length l

/-- The model of `canonicalize_json`: serialize a mapping to the most
compact form, keys sorted at every nesting level, ASCII-escaped, UTF-8
encoded (`json.dumps(data, separators=(',', ':'), sort_keys=True)
.encode('utf-8')`). -/
def canonicalize_json (v : JValue) : List Nat := utf8Encode (serJ (sortJ v))

/-- Backtracking match of the regex fragment `\s*\n` followed by the
continuation `k`: try the longest whitespace run first (greedy `\s*`), fall
back to using the current newline as the literal `\n`. This is the
depth-first exploration a backtracking engine performs. -/
def wsThenNl (k : List Nat → Option α) : List Nat → Option α
  | [] => none
  | c :: rest =>
    if isSp c then
      match wsThenNl k rest with
      | some r => some r
      | none => if c = 10 then k rest else none
    else none

/-- Match of `\n---\s*\n` at the head of the list, yielding the remainder
(the start of the second capture group). -/
def sepHere (l : List Nat) : Option (List Nat) :=
  match l with
  | c1 :: c2 :: c3 :: c4 :: rest =>
    if c1 = 10 ∧ c2 = 45 ∧ c3 = 45 ∧ c4 = 45 then wsThenNl some rest else none
  | _ => none

/-- Non-greedy scan for the closing `\n---\s*\n` of a front-matter block:
the shortest prefix (the first capture group) after which the separator
matches, paired with the remainder after the separator. -/
def seekSep : List Nat → Option (List Nat × List Nat)
  | [] => none
  | c :: rest =>
    match sepHere (c :: rest) with
    | some r => some ([], r)
    | none =>
      match seekSep rest with
      | some (g1, g2) => some (c :: g1, g2)
      | none => none

/-- The front-matter match both `canonicalize_spec` and `cmd_verify_spec`
perform: `re.match(r"^---\s*\n(.*?)\n---\s*\n(.*)$", text, re.DOTALL)`,
returning the two capture groups (with `.*` under DOTALL, `(.*)$` is
exactly the remainder, so the same matcher serves the variant without the
trailing group). -/
def matchFM (text : List Nat) : Option (List Nat × List Nat) :=
  match text with
  | c1 :: c2 :: c3 :: rest =>
    if c1 = 45 ∧ c2 = 45 ∧ c3 = 45 then wsThenNl seekSep rest else none
  | _ => none

/-- Python `str.rstrip()` on a codepoint list. -/
def rstripCp (l : List Nat) : List Nat := (l.reverse.dropWhile isSp).reverse

/-- Python `str.lstrip()` on a codepoint list. -/
def lstripCp (l : List Nat) : List Nat := l.dropWhile isSp

/-- Python `str.strip()` on a codepoint list. -/
def stripCp (l : List Nat) : List Nat := rstripCp (lstripCp l)

/-- Python `str.split('\n')` on a codepoint list: the newline-separated
parts, empty parts preserved; never the empty list. -/
def splitNl : List Nat → List (List Nat)
  | [] => [[]]
  | c :: rest =>
    if c = 10 then [] :: splitNl rest
    else
      match splitNl rest with
      | [] => [[c]]
      | p :: ps => (c :: p) :: ps

/-- Python `'\n'.join(parts)` on codepoint lists. -/
def joinNl : List (List Nat) → List Nat
  | [] => []
  | [p] => p
  | p :: q :: ps => p ++ 10 :: joinNl (q :: ps)

/-- The substitution `re.sub(r'\r\n?', '\n', body)`: every CRLF and every
lone CR becomes LF. -/
def normNl : List Nat → List Nat
  | [] => []
  | c :: rest =>
    if c = 13 then
      match rest with
      | 10 :: r2 => 10 :: normNl r2
      | r => 10 :: normNl r
    else c :: normNl rest

/-- Per-line `rstrip` joined back:
`'\n'.join(line.rstrip() for line in body.split('\n'))`. -/
def rstripLines (l : List Nat) : List Nat := joinNl ((splitNl l).map rstripCp)

/-- The body the front-matter match leaves: the second capture group when
the pattern matches, the whole text otherwise. -/
def fmBody (text : List Nat) : List Nat :=
  match matchFM text with
  | some (_, g2) => g2
  | none => text

/-- The model of `canonicalize_spec` on codepoints, parameterized by the
external `unicodedata.normalize("NFKC", ·)` (identity on ASCII): strip the
front matter, NFKC-normalize, normalize line endings, strip every line's
trailing whitespace and the document's surrounding whitespace, and end
with exactly one newline. -/
def canonSpecCp (nfkc : List Nat → List Nat) (text : List Nat) : List Nat :=
  stripCp (rstripLines (normNl (nfkc (fmBody text)))) ++ [10]

/-- The model of `canonicalize_spec`: the canonical codepoints, UTF-8
encoded (`body.encode('utf-8')`). -/
def canonicalize_spec (nfkc : List Nat → List Nat) (text : List Nat) : List Nat :=
  utf8Encode (canonSpecCp nfkc text)

theorem sortKV_perm (l : List (List Nat × JValue)) : (sortKV l).Perm l :=
  List.perm_insertionSort kvLe l

theorem sortKV_sorted (l : List (List Nat × JValue)) : List.Sorted kvLe (sortKV l) :=
  List.sorted_insertionSort kvLe l

theorem pairwise_kvLt_of_sorted_nodup :
    ∀ l : List (List Nat × JValue), List.Sorted kvLe l →
      (l.map Prod.fst).Nodup → List.Pairwise kvLt l := by
  intro l
  induction l with
  | nil => intro _ _; exact List.Pairwise.nil
  | cons p t ih =>
    intro hs hn
    rw [List.sorted_cons] at hs
    rw [List.map_cons, List.nodup_cons] at hn
    refine List.Pairwise.cons ?_ (ih hs.2 hn.2)
    intro q hq
    have hle := hs.1 q hq
    have hne : p.1 ≠ q.1 := by
      intro he
      exact hn.1 (he ▸ List.mem_map_of_mem Prod.fst hq)
    unfold kvLe at hle
    unfold kvLt
    by_contra hc
    rw [Bool.not_eq_true] at hc
    exact hne (cpLt_total_eq _ _ hc hle)

/-- Sorting by key is invariant under permutation of the input pairs when
the keys are distinct: the heart of insertion-order independence. -/
theorem sortKV_congr {l₁ l₂ : List (List Nat × JValue)} (h : l₁.Perm l₂)
    (hn : (l₁.map Prod.fst).Nodup) : sortKV l₁ = sortKV l₂ := by
  have hn₂ : (l₂.map Prod.fst).Nodup := ((h.map Prod.fst).nodup_iff).mp hn
  have hp : (sortKV l₁).Perm (sortKV l₂) :=
    ((sortKV_perm l₁).trans h).trans (sortKV_perm l₂).symm
  have hs₁ : List.Sorted kvLt (sortKV l₁) :=
    pairwise_kvLt_of_sorted_nodup _ (sortKV_sorted l₁)
      (((sortKV_perm l₁).map Prod.fst).nodup_iff.mpr hn)
  have hs₂ : List.Sorted kvLt (sortKV l₂) :=
    pairwise_kvLt_of_sorted_nodup _ (sortKV_sorted l₂)
      (((sortKV_perm l₂).map Prod.fst).nodup_iff.mpr hn₂)
  exact List.eq_of_perm_of_sorted hp hs₁ hs₂

theorem sortKVals_eq_map (l : List (List Nat × JValue)) :
    sortKVals l = l.map (fun kv => (kv.1, sortJ kv.2)) := by
  induction l with
  | nil => rfl
  | cons kv rest ih => cases kv; simp [sortKVals, ih]

theorem sortKVals_eq_self_of_fix :
    ∀ l : List (List Nat × JValue), (∀ kv ∈ l, sortJ kv.2 = kv.2) → sortKVals l = l := by
  intro l
  induction l with
  | nil => intro _; rfl
  | cons kv rest ih =>
    intro h
    cases kv with
    | mk k v =>
      simp only [sortKVals]
      rw [h (k, v) (List.mem_cons_self _ _), ih (fun q hq => h q (List.mem_cons_of_mem _ hq))]

mutual

theorem sortJ_idem : (v : JValue) → sortJ (sortJ v) = sortJ v
  | JValue.jnull => rfl
  | JValue.jbool _ => rfl
  | JValue.jint _ => rfl
  | JValue.jstr _ => rfl
  | JValue.jarr xs => by
    simp only [sortJ]
    exact congrArg JValue.jarr (sortJList_idem xs)
  | JValue.jobj kvs => by
    simp only [sortJ]
    refine congrArg JValue.jobj ?_
    rw [sortKVals_eq_self_of_fix _ (fun kv hkv =>
      sortKVals_mem_fix kvs kv ((sortKV_perm _).mem_iff.mp hkv))]
    exact (sortKV_sorted (sortKVals kvs)).insertionSort_eq

theorem sortJList_idem : (l : List JValue) → sortJList (sortJList l) = sortJList l
  | [] => rfl
  | x :: xs => by
    simp only [sortJList]
    rw [sortJ_idem x, sortJList_idem xs]

theorem sortKVals_mem_fix :
    (l : List (List Nat × JValue)) → ∀ kv ∈ sortKVals l, sortJ kv.2 = kv.2
  | [] => by intro kv hkv; simp [sortKVals] at hkv
  | (k, v) :: rest => by
    intro kv hkv
    simp only [sortKVals, List.mem_cons] at hkv
    rcases hkv with hkv | hkv
    · subst hkv; exact sortJ_idem v
    · exact sortKVals_mem_fix rest kv hkv

end

/-- Whether every codepoint (or byte) of a list is ASCII. -/
def allAscii (l : List Nat) : Bool := l.all (fun b => Nat.blt b 128)

theorem allAscii_append {l₁ l₂ : List Nat} :
    allAscii (l₁ ++ l₂) = (allAscii l₁ && allAscii l₂) := List.all_append

theorem allAscii_iff {l : List Nat} : allAscii l = true ↔ ∀ b ∈ l, b < 128 := by
  unfold allAscii
  rw [List.all_eq_true]
  constructor
  · intro h b hb; have := h b hb; simpa [Nat.blt_eq] using this
  · intro h b hb; simpa [Nat.blt_eq] using h b hb

theorem hexDigitCp_ascii (n : Nat) (h : n < 16) : hexDigitCp n < 128 := by
  unfold hexDigitCp
  split <;> omega

theorem toHex4_mem (n : Nat) : ∀ b ∈ toHex4 n, b < 128 := by
  intro b hb
  unfold toHex4 at hb
  simp only [List.mem_cons, List.not_mem_nil, or_false] at hb
  rcases hb with rfl | rfl | rfl | rfl <;>
    exact hexDigitCp_ascii _ (Nat.mod_lt _ (by omega))

theorem escChar_mem (c : Nat) : ∀ b ∈ escChar c, b < 128 := by
  intro b hb
  unfold escChar at hb
  split_ifs at hb with h1 h2 h3 h4 h5 h6 h7 h8 h9
  · simp only [List.mem_cons, List.not_mem_nil, or_false] at hb; omega
  · simp only [List.mem_cons, List.not_mem_nil, or_false] at hb; omega
  · simp only [List.mem_cons, List.not_mem_nil, or_false] at hb; omega
  · simp only [List.mem_cons, List.not_mem_nil, or_false] at hb; omega
  · simp only [List.mem_cons, List.not_mem_nil, or_false] at hb; omega
  · simp only [List.mem_cons, List.not_mem_nil, or_false] at hb; omega
  · simp only [List.mem_cons, List.not_mem_nil, or_false] at hb; omega
  · simp only [List.mem_singleton] at hb; omega
  · simp only [List.mem_cons] at hb
    rcases hb with rfl | rfl | hb
    · omega
    · omega
    · exact toHex4_mem _ b hb
  · simp only [List.cons_append, List.mem_cons, List.mem_append] at hb
    rcases hb with rfl | rfl | hb | rfl | rfl | hb
    · omega
    · omega
    · exact toHex4_mem _ b hb
    · omega
    · omega
    · exact toHex4_mem _ b hb

theorem cpConcat_mem (f : Nat → List Nat) (hf : ∀ c, ∀ b ∈ f c, b < 128) :
    ∀ l, ∀ b ∈ cpConcat f l, b < 128 := by
  intro l
  induction l with
  | nil => intro b hb; simp [cpConcat] at hb
  | cons c rest ih =>
    intro b hb
    simp only [cpConcat, List.mem_append] at hb
    rcases hb with hb | hb
    · exact hf c b hb
    · exact ih b hb

theorem natCpGo_mem : ∀ fuel n, ∀ b ∈ natCpGo fuel n, b < 128 := by
  intro fuel
  induction fuel with
  | zero => intro n b hb; simp [natCpGo] at hb
  | succ f ih =>
    intro n b hb
    simp only [natCpGo] at hb
    split at hb
    · simp only [List.mem_singleton] at hb; omega
    · rw [List.mem_append] at hb
      rcases hb with hb | hb
      · exact ih _ b hb
      · simp only [List.mem_singleton] at hb
        have := Nat.mod_lt n (show 0 < 10 by omega)
        omega

theorem intCp_mem (n : Int) : ∀ b ∈ intCp n, b < 128 := by
  cases n with
  | ofNat m => exact natCpGo_mem _ _
  | negSucc m =>
    intro b hb
    simp only [intCp, List.mem_cons] at hb
    rcases hb with rfl | hb
    · omega
    · exact natCpGo_mem _ _ b hb

mutual

theorem serJ_mem : (v : JValue) → ∀ b ∈ serJ v, b < 128
  | JValue.jnull => by
    intro b hb
    simp only [serJ, List.mem_cons, List.not_mem_nil, or_false] at hb
    omega
  | JValue.jbool true => by
    intro b hb
    simp only [serJ, List.mem_cons, List.not_mem_nil, or_false] at hb
    omega
  | JValue.jbool false => by
    intro b hb
    simp only [serJ, List.mem_cons, List.not_mem_nil, or_false] at hb
    omega
  | JValue.jint n => intCp_mem n
  | JValue.jstr s => by
    intro b hb
    simp only [serJ, List.mem_append, List.mem_cons, List.mem_singleton,
      List.not_mem_nil, or_false] at hb
    rcases hb with (rfl | hb) | rfl
    · omega
    · exact cpConcat_mem escChar escChar_mem s b hb
    · omega
  | JValue.jarr xs => by
    intro b hb
    simp only [serJ, List.mem_append, List.mem_cons, List.mem_singleton,
      List.not_mem_nil, or_false] at hb
    rcases hb with (rfl | hb) | rfl
    · omega
    · exact serList_mem xs b hb
    · omega
  | JValue.jobj kvs => by
    intro b hb
    simp only [serJ, List.mem_append, List.mem_cons, List.mem_singleton,
      List.not_mem_nil, or_false] at hb
    rcases hb with (rfl | hb) | rfl
    · omega
    · exact serKVs_mem kvs b hb
    · omega

theorem serList_mem : (l : List JValue) → ∀ b ∈ serList l, b < 128
  | [] => by intro b hb; simp [serList] at hb
  | [x] => serJ_mem x
  | x :: y :: xs => by
    intro b hb
    simp only [serList, List.mem_append, List.mem_cons] at hb
    rcases hb with hb | rfl | hb
    · exact serJ_mem x b hb
    · omega
    · exact serList_mem (y :: xs) b hb

theorem serKVs_mem : (l : List (List Nat × JValue)) → ∀ b ∈ serKVs l, b < 128
  | [] => by intro b hb; simp [serKVs] at hb
  | [(k, v)] => by
    intro b hb
    simp only [serKVs, List.mem_append, List.mem_cons, List.mem_singleton,
      List.not_mem_nil, or_false] at hb
    rcases hb with ((rfl | hb) | rfl) | rfl | hb
    · omega
    · exact cpConcat_mem escChar escChar_mem k b hb
    · omega
    · omega
    · exact serJ_mem v b hb
  | (k, v) :: q :: rest => by
    intro b hb
    simp only [serKVs, List.mem_append, List.mem_cons, List.mem_singleton,
      List.not_mem_nil, or_false] at hb
    rcases hb with (((rfl | hb) | rfl) | rfl | hb) | rfl | hb
    · omega
    · exact cpConcat_mem escChar escChar_mem k b hb
    · omega
    · omega
    · exact serJ_mem v b hb
    · omega
    · exact serKVs_mem (q :: rest) b hb

end

theorem serJ_allAscii (v : JValue) : allAscii (serJ v) = true :=
  allAscii_iff.mpr (serJ_mem v)


theorem utf8EncodeChar_ascii (c : Nat) (h : c < 128) : utf8EncodeChar c = [c] := by
  unfold utf8EncodeChar
  rw [if_pos h]

theorem utf8Encode_ascii {l : List Nat} (h : allAscii l = true) : utf8Encode l = l := by
  rw [allAscii_iff] at h
  induction l with
  | nil => rfl
  | cons c rest ih =>
    show utf8EncodeChar c ++ utf8Encode rest = c :: rest
    rw [utf8EncodeChar_ascii c (h c (List.mem_cons_self _ _)),
      ih (fun b hb => h b (List.mem_cons_of_mem _ hb))]
    rfl

theorem utf8DecodeGo_ascii {l : List Nat} (h : ∀ b ∈ l, b < 128) :
    ∀ fuel, l.length ≤ fuel → utf8DecodeGo fuel l = l := by
  induction l with
  | nil => intro fuel _; cases fuel <;> rfl
  | cons c rest ih =>
    intro fuel hf
    cases fuel with
    | zero => simp at hf
    | succ f =>
      have hc := h c (List.mem_cons_self _ _)
      show (if c < 128 then c :: utf8DecodeGo f rest else _) = c :: rest
      rw [if_pos hc, ih (fun b hb => h b (List.mem_cons_of_mem _ hb)) f
        (by simpa using Nat.succ_le_succ_iff.mp hf)]

theorem utf8Decode_ascii {l : List Nat} (h : allAscii l = true) : utf8Decode l = l := by
  rw [allAscii_iff] at h
  exact utf8DecodeGo_ascii h l.length (Nat.le_refl _)

theorem canonicalize_json_ascii (v : JValue) : allAscii (canonicalize_json v) = true := by
  unfold canonicalize_json
  rw [utf8Encode_ascii (serJ_allAscii (sortJ v))]
  exact serJ_allAscii (sortJ v)

theorem dropWhile_head_false {p : Nat → Bool} :
    ∀ {l c r}, List.dropWhile p l = c :: r → p c = false := by
  intro l
  induction l with
  | nil => intro c r h; simp [List.dropWhile] at h
  | cons a t ih =>
    intro c r h
    rw [List.dropWhile_cons] at h
    split at h
    · exact ih h
    · rename_i hpa
      rw [Bool.not_eq_true] at hpa
      cases h
      exact hpa

theorem dropWhile_eq_self_iff_head {p : Nat → Bool} {l : List Nat} :
    List.dropWhile p l = l ↔ ∀ c, l.head? = some c → p c = false := by
  cases l with
  | nil => simp [List.dropWhile]
  | cons a t =>
    rw [List.dropWhile_cons]
    constructor
    · intro h c hc
      simp only [List.head?_cons, Option.some_inj] at hc
      subst hc
      split at h
      · exfalso
        have hlen := (List.dropWhile_sublist p (l := t)).length_le
        rw [h] at hlen
        simp at hlen
      · rename_i hpa
        simpa using hpa
    · intro h
      rw [if_neg]
      rw [h a (by simp)]
      simp

theorem dropWhile_idem {p : Nat → Bool} (l : List Nat) :
    List.dropWhile p (List.dropWhile p l) = List.dropWhile p l := by
  rw [dropWhile_eq_self_iff_head]
  intro c hc
  cases hd : List.dropWhile p l with
  | nil => rw [hd] at hc; simp at hc
  | cons a t =>
    rw [hd] at hc
    simp only [List.head?_cons, Option.some_inj] at hc
    subst hc
    exact dropWhile_head_false hd

theorem rstripCp_reverse (l : List Nat) :
    (rstripCp l).reverse = List.dropWhile isSp l.reverse := by
  unfold rstripCp
  rw [List.reverse_reverse]

theorem rstripCp_idem (l : List Nat) : rstripCp (rstripCp l) = rstripCp l := by
  unfold rstripCp
  rw [List.reverse_reverse, dropWhile_idem]

theorem rstripCp_eq_self_iff {l : List Nat} :
    rstripCp l = l ↔ ∀ c, l.getLast? = some c → isSp c = false := by
  unfold rstripCp
  constructor
  · intro h c hc
    rw [← List.head?_reverse] at hc
    have h2 : List.dropWhile isSp l.reverse = l.reverse := by
      have := congrArg List.reverse h
      rwa [List.reverse_reverse] at this
    exact dropWhile_eq_self_iff_head.mp h2 c hc
  · intro h
    have h2 : List.dropWhile isSp l.reverse = l.reverse := by
      rw [dropWhile_eq_self_iff_head]
      intro c hc
      exact h c (by rwa [← List.head?_reverse])
    rw [h2, List.reverse_reverse]

theorem rstripCp_getLast_not_sp {l : List Nat} :
    ∀ c, (rstripCp l).getLast? = some c → isSp c = false := by
  intro c hc
  rw [← List.head?_reverse, rstripCp_reverse] at hc
  cases hd : List.dropWhile isSp l.reverse with
  | nil => rw [hd] at hc; simp at hc
  | cons a t =>
    rw [hd] at hc
    simp only [List.head?_cons, Option.some_inj] at hc
    subst hc
    exact dropWhile_head_false hd

theorem rstripCp_rstripped (l : List Nat) : rstripCp (rstripCp l) = rstripCp l :=
  rstripCp_idem l

theorem rstripCp_decomp (l : List Nat) :
    l = rstripCp l ++ (List.takeWhile isSp l.reverse).reverse := by
  unfold rstripCp
  have := List.takeWhile_append_dropWhile (p := isSp) (l := l.reverse)
  have h2 := congrArg List.reverse this
  rw [List.reverse_append, List.reverse_reverse] at h2
  exact h2.symm

theorem rstripCp_head? {l : List Nat} (h : rstripCp l ≠ []) :
    (rstripCp l).head? = l.head? := by
  conv_rhs => rw [rstripCp_decomp l]
  cases hs : rstripCp l with
  | nil => exact absurd hs h
  | cons a t => simp

theorem rstripCp_mem {l : List Nat} {c : Nat} (h : c ∈ rstripCp l) : c ∈ l := by
  unfold rstripCp at h
  rw [List.mem_reverse] at h
  rw [← List.mem_reverse]
  exact (List.dropWhile_sublist isSp).mem h

theorem lstripCp_head_not_sp {l c r} (h : lstripCp l = c :: r) : isSp c = false :=
  dropWhile_head_false h

theorem lstripCp_mem {l : List Nat} {c : Nat} (h : c ∈ lstripCp l) : c ∈ l :=
  (List.dropWhile_sublist isSp).mem h

theorem lstripCp_eq_self_of_head {l : List Nat}
    (h : ∀ c, l.head? = some c → isSp c = false) : lstripCp l = l :=
  dropWhile_eq_self_iff_head.mpr h

theorem splitNl_ne_nil : ∀ l : List Nat, splitNl l ≠ [] := by
  intro l
  cases l with
  | nil => simp [splitNl]
  | cons c rest =>
    unfold splitNl
    split
    · simp
    · split <;> simp

theorem splitNl_cons10 (y : List Nat) : splitNl (10 :: y) = [] :: splitNl y := by
  conv_lhs => unfold splitNl
  rw [if_pos rfl]

theorem splitNl_cons_ne {c : Nat} (hc : c ≠ 10) {y p : List Nat} {ps : List (List Nat)}
    (h : splitNl y = p :: ps) : splitNl (c :: y) = (c :: p) :: ps := by
  conv_lhs => unfold splitNl
  rw [if_neg hc, h]

theorem joinNl_cons2 (p q : List Nat) (ps : List (List Nat)) :
    joinNl (p :: q :: ps) = p ++ 10 :: joinNl (q :: ps) := rfl

theorem joinNl_splitNl : ∀ l : List Nat, joinNl (splitNl l) = l := by
  intro l
  induction l with
  | nil => rfl
  | cons c rest ih =>
    by_cases hc : c = 10
    · subst hc
      rw [splitNl_cons10]
      cases hs : splitNl rest with
      | nil => exact absurd hs (splitNl_ne_nil rest)
      | cons p ps =>
        rw [joinNl_cons2]
        rw [hs] at ih
        rw [ih]
        rfl
    · cases hs : splitNl rest with
      | nil => exact absurd hs (splitNl_ne_nil rest)
      | cons p ps =>
        rw [splitNl_cons_ne hc hs]
        rw [hs] at ih
        cases ps with
        | nil =>
          show c :: p = c :: rest
          rw [show joinNl [p] = p from rfl] at ih
          rw [ih]
        | cons q ps' =>
          rw [joinNl_cons2] at ih ⊢
          rw [List.cons_append, ih]

theorem splitNl_parts_no10 : ∀ l : List Nat, ∀ p ∈ splitNl l, 10 ∉ p := by
  intro l
  induction l with
  | nil =>
    intro p hp
    simp only [splitNl, List.mem_singleton] at hp
    subst hp
    simp
  | cons c rest ih =>
    intro p hp
    by_cases hc : c = 10
    · subst hc
      rw [splitNl_cons10] at hp
      rcases List.mem_cons.mp hp with hp | hp
      · subst hp; simp
      · exact ih p hp
    · cases hs : splitNl rest with
      | nil => exact absurd hs (splitNl_ne_nil rest)
      | cons q ps =>
        rw [splitNl_cons_ne hc hs] at hp
        rcases List.mem_cons.mp hp with hp | hp
        · subst hp
          intro hmem
          rcases List.mem_cons.mp hmem with h10 | h10
          · exact hc h10.symm
          · exact ih q (hs ▸ List.mem_cons_self _ _) h10
        · exact ih p (hs ▸ List.mem_cons_of_mem _ hp)

theorem splitNl_no10 {p : List Nat} (h : 10 ∉ p) : splitNl p = [p] := by
  induction p with
  | nil => rfl
  | cons c rest ih =>
    have hc : c ≠ 10 := fun he => h (he ▸ List.mem_cons_self _ _)
    have hr : 10 ∉ rest := fun hm => h (List.mem_cons_of_mem _ hm)
    exact splitNl_cons_ne hc (ih hr)

theorem splitNl_append10 {p : List Nat} (h : 10 ∉ p) (x : List Nat) :
    splitNl (p ++ 10 :: x) = p :: splitNl x := by
  induction p with
  | nil => exact splitNl_cons10 x
  | cons c rest ih =>
    have hc : c ≠ 10 := fun he => h (he ▸ List.mem_cons_self _ _)
    have hr : 10 ∉ rest := fun hm => h (List.mem_cons_of_mem _ hm)
    rw [List.cons_append]
    exact splitNl_cons_ne hc (ih hr)

theorem splitNl_joinNl : ∀ ps : List (List Nat), ps ≠ [] → (∀ p ∈ ps, 10 ∉ p) →
    splitNl (joinNl ps) = ps := by
  intro ps
  induction ps with
  | nil => intro h _; exact absurd rfl h
  | cons p qs ih =>
    intro _ hall
    cases qs with
    | nil =>
      show splitNl (joinNl [p]) = [p]
      exact splitNl_no10 (hall p (List.mem_cons_self _ _))
    | cons q qs' =>
      rw [joinNl_cons2, splitNl_append10 (hall p (List.mem_cons_self _ _)),
        ih (by simp) (fun r hr => hall r (List.mem_cons_of_mem _ hr))]

theorem splitNl_append_single (x : List Nat) : splitNl (x ++ [10]) = splitNl x ++ [[]] := by
  induction x with
  | nil => rfl
  | cons c rest ih =>
    by_cases hc : c = 10
    · subst hc
      rw [List.cons_append, splitNl_cons10, splitNl_cons10, ih]
      rfl
    · cases hs : splitNl rest with
      | nil => exact absurd hs (splitNl_ne_nil rest)
      | cons p ps =>
        rw [hs] at ih
        rw [List.cons_append, splitNl_cons_ne hc (ih ▸ rfl : splitNl (rest ++ [10]) = p :: (ps ++ [[]])),
          splitNl_cons_ne hc hs]
        rfl

/-- Every line of the text is already right-stripped. -/
def LinesR (l : List Nat) : Prop := ∀ p ∈ splitNl l, rstripCp p = p

theorem linesR_nil : LinesR [] := by
  intro p hp
  simp only [splitNl, List.mem_singleton] at hp
  subst hp
  rfl

theorem rstripLines_linesR (l : List Nat) : LinesR (rstripLines l) := by
  unfold rstripLines
  intro p hp
  rw [splitNl_joinNl _ (by simp [splitNl_ne_nil l]) (fun q hq => by
    rcases List.mem_map.mp hq with ⟨q₀, hq₀, rfl⟩
    exact fun hm => splitNl_parts_no10 l q₀ hq₀ (rstripCp_mem hm))] at hp
  rcases List.mem_map.mp hp with ⟨q₀, _, rfl⟩
  exact rstripCp_idem q₀

theorem rstripLines_eq_self {l : List Nat} (h : LinesR l) : rstripLines l = l := by
  unfold rstripLines
  rw [List.map_congr_left (fun p hp => h p hp)]
  have hid : List.map (fun p : List Nat => p) (splitNl l) = splitNl l := List.map_id _
  rw [hid, joinNl_splitNl]

theorem linesR_cons10 {r : List Nat} : LinesR (10 :: r) ↔ LinesR r := by
  constructor
  · intro h p hp
    exact h p (by rw [splitNl_cons10]; exact List.mem_cons_of_mem _ hp)
  · intro h p hp
    rw [splitNl_cons10] at hp
    rcases List.mem_cons.mp hp with hp | hp
    · subst hp; rfl
    · exact h p hp

theorem rstripCp_cons_self {c : Nat} {p : List Nat} (h : rstripCp (c :: p) = c :: p) :
    rstripCp p = p := by
  rw [rstripCp_eq_self_iff]
  intro d hd
  cases p with
  | nil => simp at hd
  | cons e t =>
    refine rstripCp_eq_self_iff.mp h d ?_
    rw [List.getLast?_cons_cons]
    exact hd

theorem linesR_cons_ne {c : Nat} (hc : c ≠ 10) {r : List Nat} (h : LinesR (c :: r)) :
    LinesR r := by
  cases hs : splitNl r with
  | nil => exact absurd hs (splitNl_ne_nil r)
  | cons p ps =>
    intro q hq
    rw [hs] at hq
    rcases List.mem_cons.mp hq with hq | hq
    · subst hq
      exact rstripCp_cons_self (h (c :: q) (by rw [splitNl_cons_ne hc hs]; exact List.mem_cons_self _ _))
    · exact h q (by rw [splitNl_cons_ne hc hs]; exact List.mem_cons_of_mem _ hq)

theorem linesR_lstrip {l : List Nat} (h : LinesR l) : LinesR (lstripCp l) := by
  induction l with
  | nil => exact h
  | cons c rest ih =>
    show LinesR (List.dropWhile isSp (c :: rest))
    rw [List.dropWhile_cons]
    split
    · rename_i hsp
      by_cases hc : c = 10
      · exact ih (linesR_cons10.mp (hc ▸ h))
      · exact ih (linesR_cons_ne hc h)
    · exact h

theorem rstripCp_singleton_not_sp {c : Nat} (h : isSp c = false) : rstripCp [c] = [c] := by
  rw [rstripCp_eq_self_iff]
  intro d hd
  simp only [List.getLast?_singleton, Option.some_inj] at hd
  rwa [hd] at h

theorem rstripCp_cons_unfold (c : Nat) (r : List Nat) :
    rstripCp (c :: r) =
      if rstripCp r = [] then (if isSp c then [] else [c]) else c :: rstripCp r := by
  by_cases hz : rstripCp r = []
  · rw [if_pos hz]
    have hz2 : List.dropWhile isSp r.reverse = [] := by
      have h2 := congrArg List.reverse hz
      rwa [rstripCp_reverse, List.reverse_nil] at h2
    show (List.dropWhile isSp (c :: r).reverse).reverse = _
    rw [List.reverse_cons, List.dropWhile_append, hz2]
    simp only [List.isEmpty_nil, if_true]
    by_cases hsp : isSp c
    · rw [if_pos hsp, List.dropWhile_cons, if_pos hsp]
      rfl
    · rw [if_neg hsp, List.dropWhile_cons, if_neg hsp]
      rfl
  · rw [if_neg hz]
    have hz2 : List.dropWhile isSp r.reverse ≠ [] := by
      intro he
      apply hz
      unfold rstripCp
      rw [he, List.reverse_nil]
    show (List.dropWhile isSp (c :: r).reverse).reverse = _
    rw [List.reverse_cons, List.dropWhile_append]
    have hne : (List.dropWhile isSp r.reverse).isEmpty = false := by
      cases hd : List.dropWhile isSp r.reverse with
      | nil => exact absurd hd hz2
      | cons a t => rfl
    rw [hne]
    simp only [Bool.false_eq_true, if_false]
    rw [List.reverse_append]
    rfl

theorem splitNl_head_nil {z : List Nat} {qs : List (List Nat)}
    (h : splitNl z = [] :: qs) : z = [] ∨ ∃ z', z = 10 :: z' := by
  cases z with
  | nil => exact Or.inl rfl
  | cons d z' =>
    by_cases hd : d = 10
    · exact Or.inr ⟨z', by rw [hd]⟩
    · exfalso
      cases hs : splitNl z' with
      | nil => exact absurd hs (splitNl_ne_nil z')
      | cons p ps =>
        rw [splitNl_cons_ne hd hs] at h
        cases h

theorem linesR_rstrip {l : List Nat} (h : LinesR l) : LinesR (rstripCp l) := by
  induction l with
  | nil => exact h
  | cons c r ih =>
    rw [rstripCp_cons_unfold]
    by_cases hz : rstripCp r = []
    · rw [if_pos hz]
      by_cases hsp : isSp c
      · rw [if_pos hsp]; exact linesR_nil
      · rw [if_neg hsp]
        intro p hp
        have h10 : (10 : Nat) ∉ [c] := by
          intro hm
          rcases List.mem_singleton.mp hm with he
          rw [← he] at hsp
          exact hsp (by decide)
        rw [splitNl_no10 h10] at hp
        rcases List.mem_singleton.mp hp with rfl
        exact rstripCp_singleton_not_sp (Bool.not_eq_true _ ▸ (by simpa using hsp))
    · rw [if_neg hz]
      by_cases hc : c = 10
      · subst hc
        refine linesR_cons10.mpr ?_
        exact ih (linesR_cons10.mp h)
      · have hlr : LinesR (rstripCp r) := ih (linesR_cons_ne hc h)
        cases hs : splitNl (rstripCp r) with
        | nil => exact absurd hs (splitNl_ne_nil _)
        | cons q qs =>
          intro p hp
          rw [splitNl_cons_ne hc hs] at hp
          rcases List.mem_cons.mp hp with hp | hp
          · subst hp
            rw [rstripCp_eq_self_iff]
            intro d hd
            cases q with
            | nil =>
              have hdc : d = c := by simpa using hd.symm
              subst hdc
              rcases splitNl_head_nil hs with hz0 | ⟨z', hz'⟩
              · exact absurd hz0 hz
              · have hh : (rstripCp r).head? = r.head? := rstripCp_head? hz
                rw [hz'] at hh
                cases r with
                | nil => simp at hh
                | cons e r' =>
                  simp only [List.head?_cons, Option.some_inj] at hh
                  have he : e = 10 := hh.symm
                  subst he
                  have hp0 : rstripCp [d] = [d] := by
                    refine h [d] ?_
                    rw [splitNl_cons_ne hc (splitNl_cons10 r')]
                    exact List.mem_cons_self _ _
                  exact rstripCp_eq_self_iff.mp hp0 d (by simp)
            | cons e t =>
              refine rstripCp_eq_self_iff.mp (hlr (e :: t) (hs ▸ List.mem_cons_self _ _)) d ?_
              rwa [List.getLast?_cons_cons] at hd
          · exact hlr p (hs ▸ List.mem_cons_of_mem _ hp)

theorem linesR_strip {l : List Nat} (h : LinesR l) : LinesR (stripCp l) :=
  linesR_rstrip (linesR_lstrip h)

theorem stripCp_append10 (d : List Nat) : stripCp (stripCp d ++ [10]) = stripCp d := by
  cases hs : stripCp d with
  | nil =>
    show stripCp [10] = []
    rfl
  | cons c s₀ =>
    have hhead : isSp c = false := by
      have hne : rstripCp (lstripCp d) ≠ [] := by
        show stripCp d ≠ []
        rw [hs]
        simp
      have h1 : (rstripCp (lstripCp d)).head? = (lstripCp d).head? := rstripCp_head? hne
      have h2 : (stripCp d).head? = some c := by rw [hs]; rfl
      have h3 : (lstripCp d).head? = some c := by
        rw [← h1]
        exact h2
      cases hl : lstripCp d with
      | nil => rw [hl] at h3; simp at h3
      | cons e t =>
        rw [hl] at h3
        simp only [List.head?_cons, Option.some_inj] at h3
        subst h3
        exact lstripCp_head_not_sp hl
    rw [← hs]
    show rstripCp (lstripCp (stripCp d ++ [10])) = stripCp d
    have hl : lstripCp (stripCp d ++ [10]) = stripCp d ++ [10] := by
      rw [hs]
      show List.dropWhile isSp (c :: (s₀ ++ [10])) = c :: (s₀ ++ [10])
      rw [List.dropWhile_cons, if_neg (by simp [hhead])]
    rw [hl]
    have hrev : (stripCp d ++ [10]).reverse = 10 :: (stripCp d).reverse := by simp
    have hfix : List.dropWhile isSp (stripCp d).reverse = (stripCp d).reverse := by
      show List.dropWhile isSp (rstripCp (lstripCp d)).reverse = (rstripCp (lstripCp d)).reverse
      rw [rstripCp_reverse, dropWhile_idem]
    unfold rstripCp
    rw [hrev, List.dropWhile_cons, if_pos (by decide), hfix, List.reverse_reverse]

theorem joinNl_mem_of {ps : List (List Nat)} {p : List Nat} {c : Nat}
    (hp : p ∈ ps) (hc : c ∈ p) : c ∈ joinNl ps := by
  induction ps with
  | nil => simp at hp
  | cons q qs ih =>
    rcases List.mem_cons.mp hp with hp | hp
    · subst hp
      cases qs with
      | nil => exact hc
      | cons q' qs' => rw [joinNl_cons2]; exact List.mem_append_left _ hc
    · cases qs with
      | nil => simp at hp
      | cons q' qs' =>
        rw [joinNl_cons2]
        exact List.mem_append_right _ (List.mem_cons_of_mem _ (ih hp))

theorem joinNl_mem {ps : List (List Nat)} {c : Nat} (hc : c ∈ joinNl ps) :
    (∃ p ∈ ps, c ∈ p) ∨ c = 10 := by
  induction ps with
  | nil => simp [joinNl] at hc
  | cons q qs ih =>
    cases qs with
    | nil =>
      exact Or.inl ⟨q, List.mem_cons_self _ _, hc⟩
    | cons q' qs' =>
      rw [joinNl_cons2] at hc
      rcases List.mem_append.mp hc with hc | hc
      · exact Or.inl ⟨q, List.mem_cons_self _ _, hc⟩
      · rcases List.mem_cons.mp hc with hc | hc
        · exact Or.inr hc
        · rcases ih hc with ⟨p, hp, hcp⟩ | hc'
          · exact Or.inl ⟨p, List.mem_cons_of_mem _ hp, hcp⟩
          · exact Or.inr hc'

theorem splitNl_mem_subset {l p : List Nat} (hp : p ∈ splitNl l) {c : Nat} (hc : c ∈ p) :
    c ∈ l := by
  rw [← joinNl_splitNl l]
  exact joinNl_mem_of hp hc

theorem rstripLines_mem {l : List Nat} {c : Nat} (hc : c ∈ rstripLines l) :
    c ∈ l ∨ c = 10 := by
  unfold rstripLines at hc
  rcases joinNl_mem hc with ⟨p, hp, hcp⟩ | h10
  · rcases List.mem_map.mp hp with ⟨q, hq, rfl⟩
    exact Or.inl (splitNl_mem_subset hq (rstripCp_mem hcp))
  · exact Or.inr h10

theorem stripCp_mem {l : List Nat} {c : Nat} (hc : c ∈ stripCp l) : c ∈ l :=
  lstripCp_mem (rstripCp_mem hc)

theorem normNl_13_10 (r2 : List Nat) : normNl (13 :: 10 :: r2) = 10 :: normNl r2 := by
  conv_lhs => unfold normNl
  rw [if_pos rfl]

theorem normNl_13 (r : List Nat) (hne : ∀ r2, r ≠ 10 :: r2) :
    normNl (13 :: r) = 10 :: normNl r := by
  cases r with
  | nil => rfl
  | cons d r' =>
    have hd : d ≠ 10 := fun he => hne r' (by rw [he])
    conv_lhs => unfold normNl
    rw [if_pos rfl]
    split
    · rename_i r2 heq
      injection heq with h1 h2
      exact absurd h1 hd
    · rfl

theorem normNl_cons_ne {c : Nat} (hc : c ≠ 13) (rest : List Nat) :
    normNl (c :: rest) = c :: normNl rest := by
  conv_lhs => unfold normNl
  rw [if_neg hc]

theorem normNl_no13 : ∀ l : List Nat, 13 ∉ normNl l := by
  intro l
  induction l using normNl.induct with
  | case1 => simp [normNl]
  | case2 r2 ih =>
    rw [normNl_13_10]
    intro hm
    rcases List.mem_cons.mp hm with hm | hm
    · omega
    · exact ih hm
  | case3 r hne ih =>
    rw [normNl_13 r (fun r2 he => hne r2 he)]
    intro hm
    rcases List.mem_cons.mp hm with hm | hm
    · omega
    · exact ih hm
  | case4 c rest hc ih =>
    rw [normNl_cons_ne hc]
    intro hm
    rcases List.mem_cons.mp hm with hm | hm
    · exact hc hm.symm
    · exact ih hm

theorem normNl_mem : ∀ l : List Nat, ∀ c ∈ normNl l, c ∈ l ∨ c = 10 := by
  intro l
  induction l using normNl.induct with
  | case1 => intro c hc; simp [normNl] at hc
  | case2 r2 ih =>
    intro c hc
    rw [normNl_13_10] at hc
    rcases List.mem_cons.mp hc with hc | hc
    · exact Or.inr hc
    · rcases ih c hc with hm | hm
      · exact Or.inl (List.mem_cons_of_mem _ (List.mem_cons_of_mem _ hm))
      · exact Or.inr hm
  | case3 r hne ih =>
    intro c hc
    rw [normNl_13 r (fun r2 he => hne r2 he)] at hc
    rcases List.mem_cons.mp hc with hc | hc
    · exact Or.inr hc
    · rcases ih c hc with hm | hm
      · exact Or.inl (List.mem_cons_of_mem _ hm)
      · exact Or.inr hm
  | case4 c0 rest hc0 ih =>
    intro c hc
    rw [normNl_cons_ne hc0] at hc
    rcases List.mem_cons.mp hc with hc | hc
    · exact Or.inl (hc ▸ List.mem_cons_self _ _)
    · rcases ih c hc with hm | hm
      · exact Or.inl (List.mem_cons_of_mem _ hm)
      · exact Or.inr hm

theorem normNl_eq_self : ∀ l : List Nat, 13 ∉ l → normNl l = l := by
  intro l
  induction l with
  | nil => intro _; rfl
  | cons c rest ih =>
    intro h
    have hc : c ≠ 13 := fun he => h (he ▸ List.mem_cons_self _ _)
    rw [normNl_cons_ne hc, ih (fun hm => h (List.mem_cons_of_mem _ hm))]

theorem wsThenNl_suffix {α : Type} (k : List Nat → Option α) :
    ∀ l r, wsThenNl k l = some r → ∃ t u, l = u ++ t ∧ k t = some r := by
  intro l
  induction l with
  | nil => intro r h; simp [wsThenNl] at h
  | cons c rest ih =>
    intro r h
    unfold wsThenNl at h
    by_cases hsp : isSp c
    · rw [if_pos hsp] at h
      cases hrec : wsThenNl k rest with
      | none =>
        rw [hrec] at h
        by_cases h10 : c = 10
        · refine ⟨rest, [c], by simp, ?_⟩
          have h2 : (if c = 10 then k rest else none) = some r := h
          rwa [if_pos h10] at h2
        · have h2 : (if c = 10 then k rest else none) = some r := h
          rw [if_neg h10] at h2
          cases h2
      | some v =>
        rw [hrec] at h
        have h2 : some v = some r := h
        injection h2 with hvr
        subst hvr
        rcases ih _ hrec with ⟨t, u, hlu, hk⟩
        exact ⟨t, c :: u, by rw [hlu]; rfl, hk⟩
    · rw [if_neg hsp] at h
      cases h

theorem sepHere_suffix {l r : List Nat} (h : sepHere l = some r) :
    ∃ u, l = u ++ r := by
  unfold sepHere at h
  split at h
  · rename_i c1 c2 c3 c4 rest
    split at h
    · rename_i hcs
      rcases wsThenNl_suffix some rest r h with ⟨t, u, hlu, hk⟩
      cases hk
      exact ⟨c1 :: c2 :: c3 :: c4 :: u, by rw [hlu]; rfl⟩
    · cases h
  · cases h

theorem seekSep_suffix : ∀ l g1 g2, seekSep l = some (g1, g2) → ∃ u, l = u ++ g2 := by
  intro l
  induction l with
  | nil => intro g1 g2 h; simp [seekSep] at h
  | cons c rest ih =>
    intro g1 g2 h
    unfold seekSep at h
    rcases hsep : sepHere (c :: rest) with _ | v
    · rw [hsep] at h
      simp only at h
      rcases hrec : seekSep rest with _ | p
      · rw [hrec] at h; cases h
      · rw [hrec] at h
        rcases p with ⟨p1, p2⟩
        have h2 : some ((c :: p1 : List Nat), p2) = some (g1, g2) := h
        injection h2 with h3
        have h4 : p2 = g2 := congrArg Prod.snd h3
        subst h4
        rcases ih _ _ hrec with ⟨u, hu⟩
        exact ⟨c :: u, by rw [List.cons_append, ← hu]⟩
    · rw [hsep] at h
      have h2 : some (([] : List Nat), v) = some (g1, g2) := h
      injection h2 with h3
      have h4 : v = g2 := congrArg Prod.snd h3
      subst h4
      exact sepHere_suffix hsep

theorem matchFM_g2_suffix {text g1 g2 : List Nat} (h : matchFM text = some (g1, g2)) :
    ∃ u, text = u ++ g2 := by
  unfold matchFM at h
  split at h
  · rename_i c1 c2 c3 rest
    split at h
    · rcases wsThenNl_suffix seekSep rest (g1, g2) h with ⟨t, u, hlu, hk⟩
      rcases seekSep_suffix t g1 g2 hk with ⟨u', hu'⟩
      exact ⟨c1 :: c2 :: c3 :: (u ++ u'), by rw [hlu, hu']; simp⟩
    · cases h
  · cases h

/-- The idempotence core: on codepoints, re-canonicalizing an output whose
text the front-matter pattern does not match gives the output back. -/
theorem fmBody_none {t : List Nat} (h : matchFM t = none) : fmBody t = t := by
  unfold fmBody
  rw [h]

theorem fmBody_mem {t : List Nat} {c : Nat} (hc : c ∈ fmBody t) : c ∈ t := by
  unfold fmBody at hc
  rcases hfm : matchFM t with _ | g
  · rwa [hfm] at hc
  · rcases g with ⟨g1, g2⟩
    rw [hfm] at hc
    rcases matchFM_g2_suffix hfm with ⟨u, hu⟩
    rw [hu]
    exact List.mem_append_right _ hc

/-- ASCII input yields ASCII canonical output. -/
theorem canonSpecCp_ascii (nfkc : List Nat → List Nat) (text : List Nat)
    (hascii : ∀ c ∈ text, c < 128)
    (hnfkc : ∀ l, (∀ c ∈ l, c < 128) → nfkc l = l) :
    ∀ c ∈ canonSpecCp nfkc text, c < 128 := by
  intro c hc
  unfold canonSpecCp at hc
  rcases List.mem_append.mp hc with hc | hc
  · have hc2 := stripCp_mem hc
    rcases rstripLines_mem hc2 with hc3 | h10
    · rcases normNl_mem _ c hc3 with hc4 | h10
      · have hfb : ∀ x ∈ fmBody text, x < 128 := fun x hx => hascii x (fmBody_mem hx)
        rw [hnfkc _ hfb] at hc4
        exact hfb c hc4
      · omega
    · omega
  · simp only [List.mem_singleton] at hc
    omega

/-- The idempotence core: on codepoints, re-canonicalizing an output whose
text the front-matter pattern does not match gives the output back. -/
theorem canonSpecCp_idem (nfkc : List Nat → List Nat) (text : List Nat)
    (hascii : ∀ c ∈ text, c < 128)
    (hnfkc : ∀ l, (∀ c ∈ l, c < 128) → nfkc l = l)
    (hnom : matchFM (canonSpecCp nfkc text) = none) :
    canonSpecCp nfkc (canonSpecCp nfkc text) = canonSpecCp nfkc text := by
  have hbody : ∀ c ∈ canonSpecCp nfkc text, c < 128 :=
    canonSpecCp_ascii nfkc text hascii hnfkc
  have hno13 : (13 : Nat) ∉ canonSpecCp nfkc text := by
    intro hm
    unfold canonSpecCp at hm
    rcases List.mem_append.mp hm with hm | hm
    · have hm2 := stripCp_mem hm
      rcases rstripLines_mem hm2 with hm3 | h10
      · exact normNl_no13 _ hm3
      · omega
    · simp at hm
  show stripCp (rstripLines (normNl (nfkc (fmBody (canonSpecCp nfkc text))))) ++ [10] =
    canonSpecCp nfkc text
  rw [fmBody_none hnom, hnfkc _ hbody, normNl_eq_self _ hno13]
  have hlines : LinesR (stripCp (rstripLines (normNl (nfkc (fmBody text))))) :=
    linesR_strip (rstripLines_linesR _)
  have hlines10 :
      LinesR (stripCp (rstripLines (normNl (nfkc (fmBody text)))) ++ [10]) := by
    intro p hp
    rw [splitNl_append_single] at hp
    rcases List.mem_append.mp hp with hp | hp
    · exact hlines p hp
    · simp only [List.mem_singleton] at hp
      subst hp
      rfl
  show stripCp (rstripLines (stripCp (rstripLines (normNl (nfkc (fmBody text)))) ++ [10])) ++ [10] = _
  rw [rstripLines_eq_self hlines10, stripCp_append10]
  rfl

/-- The standard base64 alphabet, index to character code. -/
def b64alpha (i : Nat) : Nat :=
  if i < 26 then 65 + i
  else if i < 52 then 71 + i
  else if i < 62 then i - 4
  else if i = 62 then 43
  else 47

/-- Index of a character code in the standard base64 alphabet. -/
def b64idx (c : Nat) : Nat :=
  if 65 ≤ c ∧ c ≤ 90 then c - 65
  else if 97 ≤ c ∧ c ≤ 122 then c - 71
  else if 48 ≤ c ∧ c ≤ 57 then c + 4
  else if c = 43 then 62
  else if c = 47 then 63
  else 0

/-- The model of `base64.b64encode` on byte lists. -/
def b64encode : List Nat → List Nat
  | a :: b :: c :: rest =>
    let n := a * 65536 + b * 256 + c
    b64alpha (n / 262144 % 64) :: b64alpha (n / 4096 % 64) ::
      b64alpha (n / 64 % 64) :: b64alpha (n % 64) :: b64encode rest
  | [a, b] =>
    let n := a * 65536 + b * 256
    [b64alpha (n / 262144 % 64), b64alpha (n / 4096 % 64), b64alpha (n / 64 % 64), 61]
  | [a] =>
    let n := a * 65536
    [b64alpha (n / 262144 % 64), b64alpha (n / 4096 % 64), 61, 61]
  | [] => []

/-- The model of `base64.b64decode` on well-formed base64 character lists. -/
def b64decode : List Nat → List Nat
  | c1 :: c2 :: c3 :: c4 :: rest =>
    let i1 := b64idx c1
    let i2 := b64idx c2
    let i3 := b64idx c3
    let i4 := b64idx c4
    if c4 = 61 then
      if c3 = 61 then [i1 * 4 + i2 / 16]
      else [i1 * 4 + i2 / 16, (i2 % 16) * 16 + i3 / 4]
    else
      (i1 * 4 + i2 / 16) :: ((i2 % 16) * 16 + i3 / 4) :: ((i3 % 4) * 64 + i4) ::
        b64decode rest
  | _ => []

theorem b64idx_alpha : ∀ i, i < 64 → b64idx (b64alpha i) = i := by decide

theorem b64alpha_ne_eq : ∀ i, i < 64 → b64alpha i ≠ 61 := by decide

theorem b64_roundtrip : ∀ l : List Nat, (∀ b ∈ l, b < 256) → b64decode (b64encode l) = l
  | [] => fun _ => rfl
  | [a] => by
    intro h
    have ha : a < 256 := h a (by simp)
    show b64decode [b64alpha (a * 65536 / 262144 % 64),
      b64alpha (a * 65536 / 4096 % 64), 61, 61] = [a]
    unfold b64decode
    rw [if_pos rfl, if_pos rfl]
    rw [b64idx_alpha _ (Nat.mod_lt _ (by omega)), b64idx_alpha _ (Nat.mod_lt _ (by omega))]
    congr 1
    omega
  | [a, b] => by
    intro h
    have ha : a < 256 := h a (by simp)
    have hb : b < 256 := h b (by simp)
    show b64decode [b64alpha ((a * 65536 + b * 256) / 262144 % 64),
      b64alpha ((a * 65536 + b * 256) / 4096 % 64),
      b64alpha ((a * 65536 + b * 256) / 64 % 64), 61] = [a, b]
    unfold b64decode
    rw [if_pos rfl, if_neg (b64alpha_ne_eq _ (Nat.mod_lt _ (by omega)))]
    rw [b64idx_alpha _ (Nat.mod_lt _ (by omega)), b64idx_alpha _ (Nat.mod_lt _ (by omega)),
      b64idx_alpha _ (Nat.mod_lt _ (by omega))]
    have e1 : (a * 65536 + b * 256) / 262144 % 64 * 4 +
        (a * 65536 + b * 256) / 4096 % 64 / 16 = a := by omega
    have e2 : (a * 65536 + b * 256) / 4096 % 64 % 16 * 16 +
        (a * 65536 + b * 256) / 64 % 64 / 4 = b := by omega
    rw [e1, e2]
  | a :: b :: c :: rest => by
    intro h
    have ha : a < 256 := h a (by simp)
    have hb : b < 256 := h b (by simp)
    have hc : c < 256 := h c (by simp)
    have ih := b64_roundtrip rest
      (fun x hx => h x (by simp only [List.mem_cons] at hx ⊢; tauto))
    show b64decode (b64alpha ((a * 65536 + b * 256 + c) / 262144 % 64) ::
      b64alpha ((a * 65536 + b * 256 + c) / 4096 % 64) ::
      b64alpha ((a * 65536 + b * 256 + c) / 64 % 64) ::
      b64alpha ((a * 65536 + b * 256 + c) % 64) :: b64encode rest) = _
    unfold b64decode
    rw [if_neg (b64alpha_ne_eq _ (Nat.mod_lt _ (by omega)))]
    rw [b64idx_alpha _ (Nat.mod_lt _ (by omega)), b64idx_alpha _ (Nat.mod_lt _ (by omega)),
      b64idx_alpha _ (Nat.mod_lt _ (by omega)), b64idx_alpha _ (Nat.mod_lt _ (by omega))]
    have e1 : (a * 65536 + b * 256 + c) / 262144 % 64 * 4 +
        (a * 65536 + b * 256 + c) / 4096 % 64 / 16 = a := by omega
    have e2 : (a * 65536 + b * 256 + c) / 4096 % 64 % 16 * 16 +
        (a * 65536 + b * 256 + c) / 64 % 64 / 4 = b := by omega
    have e3 : (a * 65536 + b * 256 + c) / 64 % 64 % 4 * 64 +
        (a * 65536 + b * 256 + c) % 64 = c := by omega
    rw [e1, e2, e3, ih]

/-- Truthiness of an optional environment string: `None` and `''` are falsy. -/
def pyTruthy (o : Option (List Nat)) : Bool :=
  match o with
  | none => false
  | some s => !s.isEmpty

/-- Python's `a or b` on optional strings: `a` when truthy, else `b`. -/
def pyOr (a b : Option (List Nat)) : Option (List Nat) :=
  if pyTruthy a then a else b

/-- `str.lower()` on the ASCII range. -/
def asciiLower (s : List Nat) : List Nat :=
  s.map (fun c => if 65 ≤ c ∧ c ≤ 90 then c + 32 else c)

/-- The controlled-environment flag:
`os.environ.get('CI', 'false').lower() == 'true'`. -/
def isCiOf (ciVar : Option (List Nat)) : Bool :=
  asciiLower (ciVar.getD (cp "false")) == cp "true"

/-- `str.startswith` on codepoint lists. -/
def startsWithCp (pre s : List Nat) : Bool := pre.isPrefixOf s

/-- The environment and filesystem a `sign_payload` invocation observes. -/
structure SignEnv where
  signingKey : Option (List Nat)
  keyId : Option (List Nat)
  ciVar : Option (List Nat)
  fileExistsAt : List Nat → Bool
  readFileAt : List Nat → List Nat
  cryptoAvailable : Bool

/-- The outcome of `sign_payload`: a fatal process exit, a returned
signature dictionary (simulated or real), or a raised `SignatureError`
(the RSA sign call is a parameter; `none` models its failure). -/
inductive SignResult where
  | fatalExit : SignResult
  | sigDict : List (List Nat × JValue) → SignResult
  | sigError : SignResult

/-- Whether a valid key source was resolved:
`priv_key_path_or_value and (file_exists or
priv_key_path_or_value.strip().startswith("-----BEGIN"))`. -/
def hasValidKeySource (env : SignEnv) : Bool :=
  match env.signingKey with
  | none => false
  | some k =>
    !k.isEmpty &&
      ((if k.isEmpty then false else env.fileExistsAt k) ||
        startsWithCp (cp "-----BEGIN") (stripCp k))

/-- The model of `sign_payload`, parameterized by the external SHA-256 hex
digest and the external RSA-PSS signing primitive (`none` = the `try`
block raises, wrapped into `SignatureError`). -/
def sign_payload (sha256hex : List Nat → List Nat)
    (rsaSignO : List Nat → List Nat → Option (List Nat))
    (env : SignEnv) (payload : List Nat) : SignResult :=
  let keyId := env.keyId.getD (cp "dev-local")
  let isCi := isCiOf env.ciVar
  if isCi && (!env.cryptoAvailable || !hasValidKeySource env) then SignResult.fatalExit
  else
    let keyBytes : List Nat :=
      match env.signingKey with
      | none => []
      | some k =>
        if k.isEmpty then []
        else if startsWithCp (cp "-----BEGIN") (stripCp k) then utf8Encode k
        else if env.fileExistsAt k then env.readFileAt k
        else []
    if !env.cryptoAvailable || keyBytes.isEmpty then
      SignResult.sigDict
        [(cp "signature", JValue.jstr (cp "SIMULATED_SIG_" ++ sha256hex payload)),
         (cp "signature_meta", JValue.jobj
           [(cp "key_id", JValue.jstr (cp "simulated")),
            (cp "algo", JValue.jstr (cp "NONE"))])]
    else
      match rsaSignO keyBytes payload with
      | some sig =>
        SignResult.sigDict
          [(cp "signature", JValue.jstr (b64encode sig)),
           (cp "signature_meta", JValue.jobj
             [(cp "key_id", JValue.jstr keyId),
              (cp "algo", JValue.jstr (cp "RS256"))])]
      | none => SignResult.sigError

/-- Association-list lookup on a parsed JSON object. -/
def lookupKV : List (List Nat × JValue) → List Nat → Option JValue
  | [], _ => none
  | (k, v) :: rest, key => if k = key then some v else lookupKV rest key

/-- `dict.pop(key, None)`: the object without the key. -/
def removeKV (l : List (List Nat × JValue)) (key : List Nat) :
    List (List Nat × JValue) :=
  l.filter (fun kv => kv.1 ≠ key)

/-- Python truthiness of a JSON value. -/
def jTruthy : JValue → Bool
  | JValue.jnull => false
  | JValue.jbool b => b
  | JValue.jint n => n ≠ 0
  | JValue.jstr s => !s.isEmpty
  | JValue.jarr xs => !xs.isEmpty
  | JValue.jobj kvs => !kvs.isEmpty

/-- The environment and filesystem a `cmd_verify_sig` invocation observes;
`artifact` is the parsed JSON object of the artifact file. -/
structure VerifyEnv where
  artifactExists : Bool
  artifact : List (List Nat × JValue)
  pubkeyArg : Option (List Nat)
  envVerifyKey : Option (List Nat)
  ciVar : Option (List Nat)
  fileExistsAt : List Nat → Bool
  readFileAt : List Nat → List Nat
  cryptoAvailable : Bool

/-- The possible outcomes of `cmd_verify_sig`: the raised
`FileNotFoundError`, the fatal CI exit for a missing public key, the
permissive skip, the bare exit when crypto is unavailable, the raised
`SignatureError` for missing signature fields, the rejection of a
simulated signature, a successful verification, a failed verification,
and the propagation of any other exception (non-dict metadata or non-string
signature value). -/
inductive VerifyOutcome where
  | errNotFound : VerifyOutcome
  | fatalNoKey : VerifyOutcome
  | skipNoKey : VerifyOutcome
  | exitNoCrypto : VerifyOutcome
  | errMissingSig : VerifyOutcome
  | failSimulated : VerifyOutcome
  | passVerified : VerifyOutcome
  | failInvalidSig : VerifyOutcome
  | errException : VerifyOutcome
deriving DecidableEq

/-- The model of `cmd_verify_sig`, parameterized by the external RSA-PSS
verification primitive (public-key file bytes, signature bytes, payload
bytes). -/
def cmd_verify_sig (rsaVerify : List Nat → List Nat → List Nat → Bool)
    (env : VerifyEnv) : VerifyOutcome :=
  let pubPath := pyOr env.pubkeyArg env.envVerifyKey
  let isCi := isCiOf env.ciVar
  if !env.artifactExists then VerifyOutcome.errNotFound
  else if !pyTruthy pubPath || !env.fileExistsAt (pubPath.getD []) then
    (if isCi then VerifyOutcome.fatalNoKey else VerifyOutcome.skipNoKey)
  else if !env.cryptoAvailable then VerifyOutcome.exitNoCrypto
  else
    let sig := lookupKV env.artifact (cp "signature")
    let meta := lookupKV env.artifact (cp "signature_meta")
    let data := removeKV (removeKV env.artifact (cp "signature")) (cp "signature_meta")
    let sigTruthy := match sig with
      | some v => jTruthy v
      | none => false
    let metaTruthy := match meta with
      | some v => jTruthy v
      | none => false
    if !sigTruthy || !metaTruthy then VerifyOutcome.errMissingSig
    else
      match meta with
      | some (JValue.jobj m) =>
        let algoNone := match lookupKV m (cp "algo") with
          | some (JValue.jstr a) => a == cp "NONE"
          | _ => false
        if algoNone then VerifyOutcome.failSimulated
        else
          match sig with
          | some (JValue.jstr sb) =>
            let payload := canonicalize_json (JValue.jobj data)
            let signature := b64decode sb
            if rsaVerify (env.readFileAt (pubPath.getD [])) signature payload then
              VerifyOutcome.passVerified
            else VerifyOutcome.failInvalidSig
          | _ => VerifyOutcome.errException
      | _ => VerifyOutcome.errException

/-- What a `cmd_verify_spec` invocation observes. -/
structure SpecEnv where
  fileExists : Bool
  text : List Nat

/-- The possible outcomes of `cmd_verify_spec`: missing file, the
`PolicyViolation` raised on malformed front-matter YAML, the failure for
an absent/`pending` declared hash, the mismatch failure reporting both
values, and the pass. -/
inductive SpecOutcome where
  | errNotFound : SpecOutcome
  | policyViolation : SpecOutcome
  | failNotFinalized : SpecOutcome
  | failMismatch : List Nat → List Nat → SpecOutcome
  | passOk : SpecOutcome
deriving DecidableEq

/-- String-valued association lookup for parsed front matter. -/
def lookupStr : List (List Nat × List Nat) → List Nat → Option (List Nat)
  | [], _ => none
  | (k, v) :: rest, key => if k = key then some v else lookupStr rest key

/-- The tail of `cmd_verify_spec` after front-matter parsing: the declared
hash against the computed canonical hash. -/
def verifySpecTail (nfkc : List Nat → List Nat) (sha256hex : List Nat → List Nat)
    (text : List Nat) (declared : Option (List Nat)) : SpecOutcome :=
  let computed := sha256hex (canonicalize_spec nfkc text)
  match declared with
  | none => SpecOutcome.failNotFinalized
  | some d =>
    if d.isEmpty || d == cp "pending" then SpecOutcome.failNotFinalized
    else if d ≠ computed then SpecOutcome.failMismatch d computed
    else SpecOutcome.passOk

/-- The model of `cmd_verify_spec`, parameterized by the external YAML
parser (`none` = parse exception) and SHA-256 hex digest. -/
def cmd_verify_spec (nfkc : List Nat → List Nat)
    (yamlParse : List Nat → Option (List (List Nat × List Nat)))
    (sha256hex : List Nat → List Nat) (env : SpecEnv) : SpecOutcome :=
  if !env.fileExists then SpecOutcome.errNotFound
  else
    match matchFM env.text with
    | some (g1, _) =>
      match yamlParse g1 with
      | none => SpecOutcome.policyViolation
      | some front =>
        verifySpecTail nfkc sha256hex env.text (lookupStr front (cp "spec_hash"))
    | none => verifySpecTail nfkc sha256hex env.text none

/-- The syntax-tree nodes the dependency checker and test scanner react
to: `ast.Import` (alias names), `ast.ImportFrom` (module and relative
level), `ast.Call` (the callee name when the callee is a plain name or an
attribute), and every other node kind. -/
inductive PyNode where
  | importStmt : List (List Nat) → PyNode
  | importFrom : Option (List Nat) → Nat → PyNode
  | callNamed : Option (List Nat) → PyNode
  | otherNode : PyNode

/-- `name.split('.')[0]`: the top-level module of a dotted name. -/
def topMod (s : List Nat) : List Nat := s.takeWhile (fun c => c ≠ 46)

/-- The import names `cmd_check_deps` collects while walking the tree:
all alias top-level names, and for `from X import Y` the top-level of `X`
only when `X` is set and the import is not relative. -/
def depsImports : List PyNode → List (List Nat)
  | [] => []
  | PyNode.importStmt names :: rest => names.map topMod ++ depsImports rest
  | PyNode.importFrom m lvl :: rest =>
    (match m with
     | some mm => if !mm.isEmpty && lvl == 0 then [topMod mm] else []
     | none => []) ++ depsImports rest
  | _ :: rest => depsImports rest

/-- `name.replace('_', '-')`. -/
def dashNorm (s : List Nat) : List Nat := s.map (fun c => if c = 95 then 45 else c)

/-- What a `cmd_check_deps` invocation observes: the parsed tree, the
standard-library module set, the local `src/<name>` existence check, the
policy allow-list keys, and the lock file with its extracted package
names (empty when parsing fails). -/
structure DepsEnv where
  parseOk : Bool
  nodes : List PyNode
  stdlibs : List (List Nat)
  srcExists : List Nat → Bool
  allowedPkgs : List (List Nat)
  lockExists : Bool
  lockNames : List (List Nat)
  targetStem : List Nat
  policyVersion : List Nat

/-- The possible outcomes of `cmd_check_deps`: the `PolicyViolation` for a
syntax error, the persisted violation report followed by the raised
`PolicyViolation`, and the pass. -/
inductive DepsOutcome where
  | errSyntax : DepsOutcome
  | failReport : List Nat → JValue → DepsOutcome
  | passOk : DepsOutcome

/-- The violation report `cmd_check_deps` persists before raising. -/
def depsReport (pol lock : List (List Nat)) (pv : List Nat) : JValue :=
  JValue.jobj
    [(cp "policy_violations", JValue.jarr (pol.map JValue.jstr)),
     (cp "lock_file_violations", JValue.jarr (lock.map JValue.jstr)),
     (cp "policy_version", JValue.jstr pv)]

/-- The model of `cmd_check_deps`. -/
def cmd_check_deps (env : DepsEnv) : DepsOutcome :=
  if !env.parseOk then DepsOutcome.errSyntax
  else
    let imports := (depsImports env.nodes).dedup
    let lockNames := if env.lockExists then env.lockNames.map asciiLower else []
    let lockViolations :=
      if !lockNames.isEmpty then
        imports.filter (fun imp =>
          !env.stdlibs.contains imp && !env.srcExists imp &&
          !lockNames.contains (asciiLower imp) &&
          !lockNames.contains (dashNorm (asciiLower imp)))
      else []
    let policyViolations :=
      imports.filter (fun imp =>
        !env.stdlibs.contains imp && !env.srcExists imp &&
        !(env.allowedPkgs.map asciiLower).contains (asciiLower imp))
    if !policyViolations.isEmpty || !lockViolations.isEmpty then
      DepsOutcome.failReport (env.targetStem ++ cp ".deps_violation.json")
        (depsReport policyViolations lockViolations env.policyVersion)
    else DepsOutcome.passOk

/-- What a `cmd_scan_tests` invocation observes. -/
structure ScanEnv where
  parseOk : Bool
  nodes : List PyNode
  bannedModules : List (List Nat)
  restrictedModules : List (List Nat)
  bannedCalls : List (List Nat)
  targetName : List Nat

/-- The banned items one node contributes during the walk. -/
def nodeBanned (env : ScanEnv) : PyNode → List (List Nat)
  | PyNode.importStmt names =>
    (names.map topMod).filter (fun t => env.bannedModules.contains t)
  | PyNode.importFrom m _ =>
    (match m with
     | some mm => if !mm.isEmpty then [topMod mm] else []
     | none => []).filter (fun t => env.bannedModules.contains t)
  | PyNode.callNamed (some n) =>
    if env.bannedCalls.contains n then [cp "Call:" ++ n] else []
  | _ => []

/-- The restricted items one node contributes during the walk. -/
def nodeRestricted (env : ScanEnv) : PyNode → List (List Nat)
  | PyNode.importStmt names =>
    (names.map topMod).filter (fun t => env.restrictedModules.contains t)
  | PyNode.importFrom m _ =>
    (match m with
     | some mm => if !mm.isEmpty then [topMod mm] else []
     | none => []).filter (fun t => env.restrictedModules.contains t)
  | _ => []

/-- The walk of `cmd_scan_tests`: the banned and restricted item lists in
visit order. -/
def scanWalk (env : ScanEnv) : List PyNode → List (List Nat) × List (List Nat)
  | [] => ([], [])
  | node :: rest =>
    let r := scanWalk env rest
    (nodeBanned env node ++ r.1, nodeRestricted env node ++ r.2)

/-- Lexicographic non-strict order on codepoint lists (Python `sorted`). -/
def cpLe (a b : List Nat) : Prop := cpLt b a = false

instance : DecidableRel cpLe := fun a b => by unfold cpLe; infer_instance

instance : IsTotal (List Nat) cpLe := by
  constructor
  intro a b
  unfold cpLe
  by_cases h : cpLt b a = false
  · exact Or.inl h
  · right
    rw [Bool.not_eq_false] at h
    by_contra hc
    rw [Bool.not_eq_false] at hc
    exact cpLt_asymm _ _ hc h

instance : IsTrans (List Nat) cpLe := by
  constructor
  intro a b c h1 h2
  unfold cpLe at h1 h2 ⊢
  by_contra hc
  rw [Bool.not_eq_false] at hc
  by_cases hab : cpLt a b = true
  · by_cases hbc : cpLt b c = true
    · exact cpLt_asymm _ _ (cpLt_trans _ _ _ hab hbc) hc
    · rw [Bool.not_eq_true] at hbc
      have he := cpLt_total_eq _ _ hbc h2
      rw [he] at hab
      exact cpLt_asymm _ _ hab hc
  · rw [Bool.not_eq_true] at hab
    have he := cpLt_total_eq _ _ hab h1
    rw [← he] at h2
    exact absurd hc (by simp [h2])

/-- `sorted(set(names))` for Python strings. -/
def sortedUnique (l : List (List Nat)) : List (List Nat) :=
  l.dedup.insertionSort cpLe

/-- The possible outcomes of `cmd_scan_tests`: the `PolicyViolation` for a
syntax error, the persisted incident report together with the sorted
unique banned set listed in the raised `PolicyViolation`, the warning
pass for restricted-only findings, and the silent pass. -/
inductive ScanOutcome where
  | errSyntax : ScanOutcome
  | failIncident : JValue → List (List Nat) → ScanOutcome
  | warnPass : List (List Nat) → ScanOutcome
  | passOk : ScanOutcome

/-- The model of `cmd_scan_tests`. -/
def cmd_scan_tests (env : ScanEnv) : ScanOutcome :=
  if !env.parseOk then ScanOutcome.errSyntax
  else
    let w := scanWalk env env.nodes
    if !w.1.isEmpty then
      ScanOutcome.failIncident
        (JValue.jobj
          [(cp "violations", JValue.jarr (w.1.map JValue.jstr)),
           (cp "file", JValue.jstr env.targetName)])
        (sortedUnique w.1)
    else if !w.2.isEmpty then ScanOutcome.warnPass w.2
    else ScanOutcome.passOk

theorem sortKVals_map_fst (l : List (List Nat × JValue)) :
    (sortKVals l).map Prod.fst = l.map Prod.fst := by
  rw [sortKVals_eq_map, List.map_map]
  exact List.map_congr_left (fun kv _ => rfl)

/-- C4. For all key/value mappings, canonicalizeStructured is invariant
under permutation of key insertion order (two objects with the same pairs
in any order and distinct keys canonicalize to identical bytes), it is
idempotent under re-serialization (the parse of the canonical form is the
recursively key-sorted value `sortJ v`, whose canonicalization equals that
of `v`), and the mapping `{"b":2,"a":1,"c":{"e":3,"d":4}}` canonicalizes
to exactly the bytes `{"a":1,"b":2,"c":{"d":4,"e":3}}` with no surrounding
whitespace. -/
theorem claim_C4_canonicalize_json_order_invariant_idempotent :
    (∀ kvs kvs' : List (List Nat × JValue), kvs.Perm kvs' → (kvs.map Prod.fst).Nodup →
      canonicalize_json (JValue.jobj kvs) = canonicalize_json (JValue.jobj kvs')) ∧
    (∀ v : JValue, canonicalize_json (sortJ v) = canonicalize_json v) ∧
    canonicalize_json (JValue.jobj
      [(cp "b", JValue.jint 2), (cp "a", JValue.jint 1),
       (cp "c", JValue.jobj [(cp "e", JValue.jint 3), (cp "d", JValue.jint 4)])]) =
      cp "\x7b\x22a\x22:1,\x22b\x22:2,\x22c\x22:\x7b\x22d\x22:4,\x22e\x22:3\x7d\x7d" := by
  refine ⟨?_, ?_, by decide⟩
  · intro kvs kvs' hperm hnodup
    have hperm2 : (sortKVals kvs).Perm (sortKVals kvs') := by
      rw [sortKVals_eq_map, sortKVals_eq_map]
      exact hperm.map _
    have hnodup2 : ((sortKVals kvs).map Prod.fst).Nodup := by
      rw [sortKVals_map_fst]
      exact hnodup
    have heq : sortKV (sortKVals kvs) = sortKV (sortKVals kvs') :=
      sortKV_congr hperm2 hnodup2
    show utf8Encode (serJ (JValue.jobj (sortKV (sortKVals kvs)))) =
      utf8Encode (serJ (JValue.jobj (sortKV (sortKVals kvs'))))
    rw [heq]
  · intro v
    unfold canonicalize_json
    rw [sortJ_idem v]

/-- C10. Every byte of canonicalizeStructured output is ASCII (below
0x80): non-ASCII characters are emitted as `\uXXXX` escapes, never as raw
UTF-8 bytes, as the concrete example `{"k":"é"}` shows. -/
theorem claim_C10_canonicalize_json_all_ascii :
    (∀ v : JValue, allAscii (canonicalize_json v) = true) ∧
    canonicalize_json (JValue.jobj [(cp "k", JValue.jstr [233])]) =
      cp "\x7b\x22k\x22:\x22\\u00e9\x22\x7d" :=
  ⟨canonicalize_json_ascii, by decide⟩

/-- C8 counterexample. `canonicalize_spec` as implemented is not
idempotent: for the text `"\n---\na\n---\nb"` (no front-matter match, since
the text does not start with `---`), the first canonicalization strips the
leading newline and produces `"---\na\n---\nb\n"`, which the second
canonicalization then treats as front matter, yielding `"b\n"`. NFKC is
the identity here since the text is ASCII. -/
theorem claim_C8_counterexample :
    canonicalize_spec id (utf8Decode (canonicalize_spec id (cp "\n---\na\n---\nb"))) ≠
      canonicalize_spec id (cp "\n---\na\n---\nb") := by decide

/-- C8 amended. `canonicalize_spec` is idempotent on every (ASCII) input
text whose canonical form does not itself match the front-matter pattern:
applying `canonicalize_spec` to the UTF-8-decoded result of
`canonicalize_spec` yields the same bytes. The NFKC parameter is only
assumed to be the identity on ASCII text, which Unicode guarantees. -/
theorem claim_C8_canonicalize_spec_idempotent_amended
    (nfkc : List Nat → List Nat) (text : List Nat)
    (hascii : ∀ c ∈ text, c < 128)
    (hnfkc : ∀ l, (∀ c ∈ l, c < 128) → nfkc l = l)
    (hnom : matchFM (canonSpecCp nfkc text) = none) :
    canonicalize_spec nfkc (utf8Decode (canonicalize_spec nfkc text)) =
      canonicalize_spec nfkc text := by
  have hasc : allAscii (canonSpecCp nfkc text) = true :=
    allAscii_iff.mpr (canonSpecCp_ascii nfkc text hascii hnfkc)
  unfold canonicalize_spec
  rw [utf8Encode_ascii hasc, utf8Decode_ascii hasc,
    canonSpecCp_idem nfkc text hascii hnfkc hnom, utf8Encode_ascii hasc]

/-- C8 witness: the amended idempotence at the concrete text `hello`. -/
theorem claim_C8_witness :
    canonicalize_spec id (utf8Decode (canonicalize_spec id (cp "hello"))) =
      canonicalize_spec id (cp "hello") :=
  claim_C8_canonicalize_spec_idempotent_amended id (cp "hello") (by decide)
    (fun _ _ => rfl) (by decide)

/-- C1. An artifact whose `signature_meta.algo` equals `NONE` is never
accepted by the verifier: under no environment does `cmd_verify_sig`
return a successful verification for it, and whenever verification is
actually performed (artifact present, public key resolvable, crypto
available, signature field present and non-empty), the outcome is the
unconditional rejection of the simulated signature, regardless of digest
correctness. -/
theorem claim_C1_verify_rejects_algo_none
    (rsaVerify : List Nat → List Nat → List Nat → Bool) (env : VerifyEnv)
    (m : List (List Nat × JValue)) (sv : JValue)
    (hmeta : lookupKV env.artifact (cp "signature_meta") = some (JValue.jobj m))
    (halgo : lookupKV m (cp "algo") = some (JValue.jstr (cp "NONE"))) :
    cmd_verify_sig rsaVerify env ≠ VerifyOutcome.passVerified ∧
    (env.artifactExists = true →
      pyTruthy (pyOr env.pubkeyArg env.envVerifyKey) = true →
      env.fileExistsAt ((pyOr env.pubkeyArg env.envVerifyKey).getD []) = true →
      env.cryptoAvailable = true →
      lookupKV env.artifact (cp "signature") = some sv →
      jTruthy sv = true →
      cmd_verify_sig rsaVerify env = VerifyOutcome.failSimulated) := by
  have hmne : m ≠ [] := by
    intro he
    rw [he] at halgo
    simp [lookupKV] at halgo
  constructor
  · intro hc
    simp only [cmd_verify_sig] at hc
    split at hc
    · exact VerifyOutcome.noConfusion hc
    split at hc
    · split at hc <;> exact VerifyOutcome.noConfusion hc
    split at hc
    · exact VerifyOutcome.noConfusion hc
    split at hc
    · exact VerifyOutcome.noConfusion hc
    split at hc
    · rename_i m' hmeta'
      rw [hmeta] at hmeta'
      have hm : m = m' := by
        injection hmeta' with h1
        injection h1 with h2
        try exact h2
      subst hm
      rw [halgo] at hc
      simp only [beq_self_eq_true, if_true] at hc
      exact VerifyOutcome.noConfusion hc
    · exact VerifyOutcome.noConfusion hc
  · intro hex hpub hfile hcrypto hsigv htruthy
    simp only [cmd_verify_sig, hex, hpub, hfile, hcrypto, hmeta, hsigv, htruthy, halgo]
    simp [jTruthy, hmne]

/-- C9. When no public key is resolvable for an existing artifact (no
argument or environment value, or the named key file does not exist),
`cmd_verify_sig` exits fatally in a controlled environment and otherwise
returns as a no-op pass with a warning, skipping verification. -/
theorem claim_C9_verify_no_pubkey
    (rsaVerify : List Nat → List Nat → List Nat → Bool) (env : VerifyEnv)
    (hexists : env.artifactExists = true)
    (hnokey : pyTruthy (pyOr env.pubkeyArg env.envVerifyKey) = false ∨
      env.fileExistsAt ((pyOr env.pubkeyArg env.envVerifyKey).getD []) = false) :
    cmd_verify_sig rsaVerify env =
      (if isCiOf env.ciVar then VerifyOutcome.fatalNoKey else VerifyOutcome.skipNoKey) := by
  simp only [cmd_verify_sig, hexists]
  rcases hnokey with h | h <;> simp [h]

/-- C9 witness: a concrete environment with no public key, checked in
both the controlled and the permissive case. -/
theorem claim_C9_witness :
    cmd_verify_sig (fun _ _ _ => true)
      { artifactExists := true, artifact := [], pubkeyArg := none,
        envVerifyKey := none, ciVar := some (cp "true"),
        fileExistsAt := fun _ => false, readFileAt := fun _ => [],
        cryptoAvailable := true } = VerifyOutcome.fatalNoKey ∧
    cmd_verify_sig (fun _ _ _ => true)
      { artifactExists := true, artifact := [], pubkeyArg := none,
        envVerifyKey := none, ciVar := none,
        fileExistsAt := fun _ => false, readFileAt := fun _ => [],
        cryptoAvailable := true } = VerifyOutcome.skipNoKey := by
  constructor
  · have h := claim_C9_verify_no_pubkey (fun _ _ _ => true)
      { artifactExists := true, artifact := [], pubkeyArg := none,
        envVerifyKey := none, ciVar := some (cp "true"),
        fileExistsAt := fun _ => false, readFileAt := fun _ => [],
        cryptoAvailable := true } rfl (Or.inl rfl)
    rw [h]
    decide
  · have h := claim_C9_verify_no_pubkey (fun _ _ _ => true)
      { artifactExists := true, artifact := [], pubkeyArg := none,
        envVerifyKey := none, ciVar := none,
        fileExistsAt := fun _ => false, readFileAt := fun _ => [],
        cryptoAvailable := true } rfl (Or.inl rfl)
    rw [h]
    decide

/-- The verification environment of the C1 witness: an artifact carrying
a simulated signature with `algo = NONE` and a correct digest, with a
resolvable public key and crypto available. -/
def c1env : VerifyEnv :=
  { artifactExists := true,
    artifact := [(cp "a", JValue.jint 1),
      (cp "signature", JValue.jstr (cp "SIMULATED_SIG_x")),
      (cp "signature_meta", JValue.jobj
        [(cp "key_id", JValue.jstr (cp "simulated")),
         (cp "algo", JValue.jstr (cp "NONE"))])],
    pubkeyArg := some (cp "pk.pem"), envVerifyKey := none, ciVar := none,
    fileExistsAt := fun _ => true, readFileAt := fun _ => [],
    cryptoAvailable := true }

/-- C1 witness: the concrete artifact with a simulated signature is
rejected. -/
theorem claim_C1_witness :
    cmd_verify_sig (fun _ _ _ => true) c1env = VerifyOutcome.failSimulated :=
  (claim_C1_verify_rejects_algo_none (fun _ _ _ => true) c1env
    [(cp "key_id", JValue.jstr (cp "simulated")), (cp "algo", JValue.jstr (cp "NONE"))]
    (JValue.jstr (cp "SIMULATED_SIG_x")) rfl rfl).2
    rfl (by decide) rfl rfl rfl (by decide)

/-- The signing environment of the C2 counterexample: a controlled
environment whose key value starts with whitespace before `-----BEGIN`
and is not an existing file. -/
def c2env : SignEnv :=
  { signingKey := some (cp " -----BEGIN FAKE KEY"), keyId := none,
    ciVar := some (cp "true"), fileExistsAt := fun _ => false,
    readFileAt := fun _ => [], cryptoAvailable := true }

/-- C2 counterexample. In a controlled environment (CI set) with a key
value that is set but is neither an existing file path nor a string
starting with `-----BEGIN` (it starts with a space), the claim demands a
fatal exit; the code instead strips the value first, accepts it as an
inline key, attempts real signing and raises `SignatureError` — it does
not abort with the fatal exit (nor return a simulated signature). -/
theorem claim_C2_counterexample :
    isCiOf c2env.ciVar = true ∧
    c2env.cryptoAvailable = true ∧
    c2env.signingKey = some (cp " -----BEGIN FAKE KEY") ∧
    c2env.fileExistsAt (cp " -----BEGIN FAKE KEY") = false ∧
    startsWithCp (cp "-----BEGIN") (cp " -----BEGIN FAKE KEY") = false ∧
    sign_payload (fun _ => []) (fun _ _ => none) c2env [] = SignResult.sigError := by
  refine ⟨by decide, rfl, rfl, rfl, by decide, ?_⟩
  rfl

/-- C2 amended. If the controlled-environment flag is set and
cryptographic capability is unavailable or no valid key source was
resolved — where a valid key source means the key value is set and is an
existing file path or its whitespace-stripped value starts with
`-----BEGIN` — then `sign_payload` aborts the whole process with a fatal
exit and in particular never returns a simulated signature. -/
theorem claim_C2_sign_fail_closed_amended
    (sha256hex : List Nat → List Nat)
    (rsaSignO : List Nat → List Nat → Option (List Nat))
    (env : SignEnv) (payload : List Nat)
    (hci : isCiOf env.ciVar = true)
    (h : env.cryptoAvailable = false ∨ hasValidKeySource env = false) :
    sign_payload sha256hex rsaSignO env payload = SignResult.fatalExit := by
  simp only [sign_payload, hci]
  rcases h with h | h <;> simp [h]

/-- C2 witness: the amended fail-closed rule at a concrete controlled
environment with no key at all. -/
theorem claim_C2_witness :
    sign_payload (fun _ => []) (fun _ _ => none)
      { signingKey := none, keyId := none, ciVar := some (cp "true"),
        fileExistsAt := fun _ => false, readFileAt := fun _ => [],
        cryptoAvailable := true } [] = SignResult.fatalExit :=
  claim_C2_sign_fail_closed_amended (fun _ => []) (fun _ _ => none) _ []
    (by decide) (Or.inr rfl)

theorem isEmpty_false_of_ne {l : List Nat} (h : l ≠ []) : l.isEmpty = false := by
  cases l with
  | nil => exact absurd rfl h
  | cons a t => rfl

theorem utf8EncodeChar_ne_nil (c : Nat) : utf8EncodeChar c ≠ [] := by
  unfold utf8EncodeChar
  split
  · simp
  · split
    · simp
    · split <;> simp

theorem utf8Encode_ne_nil {l : List Nat} (h : l ≠ []) : utf8Encode l ≠ [] := by
  cases l with
  | nil => exact absurd rfl h
  | cons c rest =>
    show utf8EncodeChar c ++ utf8Encode rest ≠ []
    simp [utf8EncodeChar_ne_nil c]

theorem b64encode_ne_nil {l : List Nat} (h : l ≠ []) : b64encode l ≠ [] := by
  cases l with
  | nil => exact absurd rfl h
  | cons a t =>
    cases t with
    | nil => simp [b64encode]
    | cons b t2 =>
      cases t2 with
      | nil => simp [b64encode]
      | cons c t3 => simp [b64encode]

theorem lookupKV_append_left_none {l1 l2 : List (List Nat × JValue)} {k : List Nat}
    (h : lookupKV l1 k = none) : lookupKV (l1 ++ l2) k = lookupKV l2 k := by
  induction l1 with
  | nil => rfl
  | cons kv rest ih =>
    cases kv with
    | mk k' v =>
      simp only [lookupKV] at h
      split at h
      · cases h
      · rename_i hne
        show lookupKV ((k', v) :: (rest ++ l2)) k = lookupKV l2 k
        simp only [lookupKV, if_neg hne]
        exact ih h

theorem lookupKV_none_ne {l : List (List Nat × JValue)} {k : List Nat}
    (h : lookupKV l k = none) : ∀ kv ∈ l, kv.1 ≠ k := by
  induction l with
  | nil => intro kv hkv; simp at hkv
  | cons p rest ih =>
    intro kv hkv
    cases p with
    | mk k' v =>
      simp only [lookupKV] at h
      split at h
      · cases h
      · rename_i hne
        rcases List.mem_cons.mp hkv with hkv | hkv
        · subst hkv; exact hne
        · exact ih h kv hkv

theorem removeKV_append (l1 l2 : List (List Nat × JValue)) (k : List Nat) :
    removeKV (l1 ++ l2) k = removeKV l1 k ++ removeKV l2 k := by
  unfold removeKV
  rw [List.filter_append]

theorem removeKV_eq_self {l : List (List Nat × JValue)} {k : List Nat}
    (h : ∀ kv ∈ l, kv.1 ≠ k) : removeKV l k = l := by
  unfold removeKV
  rw [List.filter_eq_self]
  intro kv hkv
  exact decide_eq_true (h kv hkv)

/-- The signature and metadata entries `sign_payload` adds for a real
RSA signature over the canonical payload of `artifact0`, with the default
development key id. -/
def sigEntries (sigOf : List Nat → List Nat) (artifact0 : List (List Nat × JValue)) :
    List (List Nat × JValue) :=
  [(cp "signature",
      JValue.jstr (b64encode (sigOf (canonicalize_json (JValue.jobj artifact0))))),
   (cp "signature_meta", JValue.jobj
      [(cp "key_id", JValue.jstr (cp "dev-local")),
       (cp "algo", JValue.jstr (cp "RS256"))])]

/-- The verification environment of the round-trip: the artifact exists,
a public-key path is given and exists, reading it yields `pkB`, and the
crypto library is available. -/
def verifyEnvFor (pkB : List Nat) (a : List (List Nat × JValue)) : VerifyEnv :=
  { artifactExists := true, artifact := a, pubkeyArg := some (cp "pk.pem"),
    envVerifyKey := none, ciVar := none, fileExistsAt := fun _ => true,
    readFileAt := fun _ => pkB, cryptoAvailable := true }

/-- C3. With a valid RSA key pair — `sign_payload` resolves the private
key (an inline PEM value) and verification reads the corresponding public
key, modelled by an ideal scheme whose verification accepts exactly the
signature the private key produces — `verify(sign(payload))` passes for
every payload: signing the canonical payload of any artifact and storing
the returned signature fields beside it yields an artifact that
`cmd_verify_sig` accepts; and any change to the non-signature fields that
alters the canonical payload byte string (in particular any single-byte
alteration of it) makes verification fail. -/
theorem claim_C3_sign_verify_roundtrip_and_tamper
    (sigOf : List Nat → List Nat) (pkB : List Nat)
    (rsaVerify : List Nat → List Nat → List Nat → Bool)
    (sha256hex : List Nat → List Nat)
    (senv : SignEnv) (sk : List Nat)
    (artifact0 : List (List Nat × JValue))
    (hkey : senv.signingKey = some sk)
    (hskne : sk ≠ [])
    (hpem : startsWithCp (cp "-----BEGIN") (stripCp sk) = true)
    (hcrypto : senv.cryptoAvailable = true)
    (hkid : senv.keyId = none)
    (hver : ∀ s m, rsaVerify pkB s m = (s == sigOf m))
    (hinj : ∀ m m', sigOf m = sigOf m' → m = m')
    (hbytes : ∀ b ∈ sigOf (canonicalize_json (JValue.jobj artifact0)), b < 256)
    (hne : sigOf (canonicalize_json (JValue.jobj artifact0)) ≠ [])
    (hnosig : lookupKV artifact0 (cp "signature") = none)
    (hnometa : lookupKV artifact0 (cp "signature_meta") = none) :
    sign_payload sha256hex (fun _ m => some (sigOf m)) senv
        (canonicalize_json (JValue.jobj artifact0)) =
      SignResult.sigDict (sigEntries sigOf artifact0) ∧
    cmd_verify_sig rsaVerify
        (verifyEnvFor pkB (artifact0 ++ sigEntries sigOf artifact0)) =
      VerifyOutcome.passVerified ∧
    (∀ data' : List (List Nat × JValue),
      lookupKV data' (cp "signature") = none →
      lookupKV data' (cp "signature_meta") = none →
      canonicalize_json (JValue.jobj data') ≠ canonicalize_json (JValue.jobj artifact0) →
      cmd_verify_sig rsaVerify
          (verifyEnvFor pkB (data' ++ sigEntries sigOf artifact0)) =
        VerifyOutcome.failInvalidSig) := by
  have hske : sk.isEmpty = false := isEmpty_false_of_ne hskne
  have hue : (utf8Encode sk).isEmpty = false := isEmpty_false_of_ne (utf8Encode_ne_nil hskne)
  have hval : hasValidKeySource senv = true := by
    unfold hasValidKeySource
    rw [hkey]
    simp [hske, hpem]
  refine ⟨?_, ?_, ?_⟩
  · simp only [sign_payload, hkey, hkid, hval, hcrypto, hske, hpem, hue]
    simp [sigEntries, utf8Encode_ne_nil hskne]
  · have hlook1 : lookupKV (artifact0 ++ sigEntries sigOf artifact0) (cp "signature") =
        some (JValue.jstr (b64encode (sigOf (canonicalize_json (JValue.jobj artifact0))))) := by
      rw [lookupKV_append_left_none hnosig]
      rfl
    have hlook2 : lookupKV (artifact0 ++ sigEntries sigOf artifact0) (cp "signature_meta") =
        some (JValue.jobj
          [(cp "key_id", JValue.jstr (cp "dev-local")),
           (cp "algo", JValue.jstr (cp "RS256"))]) := by
      rw [lookupKV_append_left_none hnometa]
      rfl
    have hdata : removeKV (removeKV (artifact0 ++ sigEntries sigOf artifact0)
        (cp "signature")) (cp "signature_meta") = artifact0 := by
      rw [removeKV_append, removeKV_eq_self (lookupKV_none_ne hnosig), removeKV_append,
        removeKV_eq_self (lookupKV_none_ne hnometa)]
      have he : removeKV (removeKV (sigEntries sigOf artifact0) (cp "signature"))
          (cp "signature_meta") = [] := by
        simp [sigEntries, removeKV, cp]
      rw [he, List.append_nil]
    have hsb : jTruthy (JValue.jstr
        (b64encode (sigOf (canonicalize_json (JValue.jobj artifact0))))) = true := by
      simp [jTruthy, isEmpty_false_of_ne (b64encode_ne_nil hne)]
    simp only [cmd_verify_sig, verifyEnvFor, hlook1, hlook2, hdata, hsb]
    simp only [pyOr, pyTruthy, isCiOf]
    simp only [b64_roundtrip _ hbytes, hver]
    simp [lookupKV, jTruthy, cp]
  · intro data' hs hm hcanon
    have hlook1 : lookupKV (data' ++ sigEntries sigOf artifact0) (cp "signature") =
        some (JValue.jstr (b64encode (sigOf (canonicalize_json (JValue.jobj artifact0))))) := by
      rw [lookupKV_append_left_none hs]
      rfl
    have hlook2 : lookupKV (data' ++ sigEntries sigOf artifact0) (cp "signature_meta") =
        some (JValue.jobj
          [(cp "key_id", JValue.jstr (cp "dev-local")),
           (cp "algo", JValue.jstr (cp "RS256"))]) := by
      rw [lookupKV_append_left_none hm]
      rfl
    have hdata : removeKV (removeKV (data' ++ sigEntries sigOf artifact0)
        (cp "signature")) (cp "signature_meta") = data' := by
      rw [removeKV_append, removeKV_eq_self (lookupKV_none_ne hs), removeKV_append,
        removeKV_eq_self (lookupKV_none_ne hm)]
      have he : removeKV (removeKV (sigEntries sigOf artifact0) (cp "signature"))
          (cp "signature_meta") = [] := by
        simp [sigEntries, removeKV, cp]
      rw [he, List.append_nil]
    have hsb : jTruthy (JValue.jstr
        (b64encode (sigOf (canonicalize_json (JValue.jobj artifact0))))) = true := by
      simp [jTruthy, isEmpty_false_of_ne (b64encode_ne_nil hne)]
    have hfalse : (sigOf (canonicalize_json (JValue.jobj artifact0)) ==
        sigOf (canonicalize_json (JValue.jobj data'))) = false := by
      rw [beq_eq_false_iff_ne]
      intro he
      exact hcanon (hinj _ _ he).symm
    simp only [cmd_verify_sig, verifyEnvFor, hlook1, hlook2, hdata, hsb]
    simp only [pyOr, pyTruthy, isCiOf]
    simp only [b64_roundtrip _ hbytes, hver]
    simp [lookupKV, jTruthy, cp, hfalse]

/-- The signing environment of the C3 witness: an inline PEM key. -/
def c3senv : SignEnv :=
  { signingKey := some (cp "-----BEGIN TESTKEY"), keyId := none, ciVar := none,
    fileExistsAt := fun _ => false, readFileAt := fun _ => [],
    cryptoAvailable := true }

/-- The artifact fields of the C3 witness. -/
def c3art : List (List Nat × JValue) := [(cp "a", JValue.jint 1)]

/-- C3 witness: the round-trip and tamper behavior at a concrete artifact
under a concrete ideal scheme. -/
theorem claim_C3_witness :
    sign_payload (fun _ => []) (fun _ m => some ((65 : Nat) :: m)) c3senv
        (canonicalize_json (JValue.jobj c3art)) =
      SignResult.sigDict (sigEntries (fun m => (65 : Nat) :: m) c3art) ∧
    cmd_verify_sig (fun _ s m => s == (65 : Nat) :: m)
        (verifyEnvFor [1] (c3art ++ sigEntries (fun m => (65 : Nat) :: m) c3art)) =
      VerifyOutcome.passVerified ∧
    (∀ data' : List (List Nat × JValue),
      lookupKV data' (cp "signature") = none →
      lookupKV data' (cp "signature_meta") = none →
      canonicalize_json (JValue.jobj data') ≠ canonicalize_json (JValue.jobj c3art) →
      cmd_verify_sig (fun _ s m => s == (65 : Nat) :: m)
          (verifyEnvFor [1] (data' ++ sigEntries (fun m => (65 : Nat) :: m) c3art)) =
        VerifyOutcome.failInvalidSig) :=
  claim_C3_sign_verify_roundtrip_and_tamper (fun m => (65 : Nat) :: m) [1]
    (fun _ s m => s == (65 : Nat) :: m) (fun _ => []) c3senv
    (cp "-----BEGIN TESTKEY") c3art rfl (by decide) (by decide) rfl rfl
    (fun _ _ => rfl) (fun m m' h => by injection h with h1 h2; try exact h2)
    (by decide) (by decide) rfl rfl

/-- A nonempty declared hash different from the literal `pending` passes the
Python-falsy/`pending` test of `cmd_verify_spec`. -/
theorem isEmptyOrPending_false (d : List Nat) (hne : d ≠ []) (hnp : d ≠ cp "pending") :
    (d.isEmpty || d == cp "pending") = false := by
  cases d with
  | nil => exact absurd rfl hne
  | cons a l =>
    simp only [List.isEmpty_cons, Bool.false_or]
    exact beq_eq_false_iff_ne.mpr hnp

/-- C5: on an existing spec file whose text has well-formed front matter,
`cmd_verify_spec` raises a policy violation when the front-matter YAML
parse fails; with parsed front matter it fails (not finalized) when the
declared `spec_hash` is absent, empty or the literal `pending`, fails
reporting both the declared and the computed value when the declared hash
differs from the SHA-256 of the canonicalized full text, and passes
exactly when the declared hash equals that computed hash. -/
theorem claim_C5_verify_spec_hash_gate (nfkc : List Nat → List Nat)
    (yamlParse : List Nat → Option (List (List Nat × List Nat)))
    (sha256hex : List Nat → List Nat) (env : SpecEnv)
    (hex : env.fileExists = true) (g1 g2 : List Nat)
    (hm : matchFM env.text = some (g1, g2))
    (hsha : ∀ l, (sha256hex l).length = 64) :
    (yamlParse g1 = none →
      cmd_verify_spec nfkc yamlParse sha256hex env = SpecOutcome.policyViolation) ∧
    (∀ front, yamlParse g1 = some front →
      ((lookupStr front (cp "spec_hash") = none ∨
        lookupStr front (cp "spec_hash") = some (cp "pending") ∨
        lookupStr front (cp "spec_hash") = some []) →
        cmd_verify_spec nfkc yamlParse sha256hex env = SpecOutcome.failNotFinalized) ∧
      (∀ d, lookupStr front (cp "spec_hash") = some d → d ≠ [] → d ≠ cp "pending" →
        d ≠ sha256hex (canonicalize_spec nfkc env.text) →
        cmd_verify_spec nfkc yamlParse sha256hex env =
          SpecOutcome.failMismatch d (sha256hex (canonicalize_spec nfkc env.text))) ∧
      (∀ d, lookupStr front (cp "spec_hash") = some d →
        (cmd_verify_spec nfkc yamlParse sha256hex env = SpecOutcome.passOk ↔
          d = sha256hex (canonicalize_spec nfkc env.text)))) := by
  have h1 : cmd_verify_spec nfkc yamlParse sha256hex env =
      (match yamlParse g1 with
       | none => SpecOutcome.policyViolation
       | some front =>
         verifySpecTail nfkc sha256hex env.text (lookupStr front (cp "spec_hash"))) := by
    unfold cmd_verify_spec
    rw [hex, hm]
    rfl
  have h2 : ∀ front, yamlParse g1 = some front →
      cmd_verify_spec nfkc yamlParse sha256hex env =
        verifySpecTail nfkc sha256hex env.text (lookupStr front (cp "spec_hash")) := by
    intro front hfr
    rw [h1, hfr]
  have hT : ∀ d, verifySpecTail nfkc sha256hex env.text (some d) =
      (if d.isEmpty || d == cp "pending" then SpecOutcome.failNotFinalized
       else if d ≠ sha256hex (canonicalize_spec nfkc env.text) then
         SpecOutcome.failMismatch d (sha256hex (canonicalize_spec nfkc env.text))
       else SpecOutcome.passOk) := fun d => rfl
  refine ⟨?_, ?_⟩
  · intro hy
    rw [h1, hy]
  · intro front hfr
    refine ⟨?_, ?_, ?_⟩
    · intro hcase
      rw [h2 front hfr]
      rcases hcase with hc | hc | hc <;> rw [hc]
      · rfl
      · rw [hT, if_pos (by decide)]
      · rw [hT, if_pos (by decide)]
    · intro d hd hne hnp hnc
      rw [h2 front hfr, hd, hT, isEmptyOrPending_false d hne hnp]
      simp only [Bool.false_eq_true, if_false]
      rw [if_pos hnc]
    · intro d hd
      rw [h2 front hfr, hd, hT]
      constructor
      · intro hp
        by_cases hA : (d.isEmpty || d == cp "pending") = true
        · rw [if_pos hA] at hp
          exact SpecOutcome.noConfusion hp
        · rw [if_neg hA] at hp
          by_cases hB : d = sha256hex (canonicalize_spec nfkc env.text)
          · exact hB
          · rw [if_pos hB] at hp
            exact SpecOutcome.noConfusion hp
      · intro he
        subst he
        have h64 := hsha (canonicalize_spec nfkc env.text)
        have h0 : sha256hex (canonicalize_spec nfkc env.text) ≠ [] := by
          intro h
          rw [h] at h64
          exact absurd h64 (by decide)
        have h7 : sha256hex (canonicalize_spec nfkc env.text) ≠ cp "pending" := by
          intro h
          rw [h] at h64
          exact absurd h64 (by decide)
        rw [isEmptyOrPending_false _ h0 h7]
        simp only [Bool.false_eq_true, if_false]
        rw [if_neg (fun h => h rfl)]

/-- The YAML parse of the C5 witness: a front matter declaring `pending`. -/
def c5yaml : List Nat → Option (List (List Nat × List Nat)) :=
  fun _ => some [(cp "spec_hash", cp "pending")]

/-- The digest primitive of the C5 witness: 64 times the letter `a`. -/
def c5sha : List Nat → List Nat := fun _ => List.replicate 64 97

/-- The spec file of the C5 witness: front matter with `spec_hash: pending`. -/
def c5env : SpecEnv :=
  { fileExists := true, text := cp "---\nspec_hash: pending\n---\nbody" }

/-- C5 witness: a spec document whose front matter declares
`spec_hash: pending` fails `cmd_verify_spec` as not finalized. -/
theorem claim_C5_witness :
    cmd_verify_spec id c5yaml c5sha c5env = SpecOutcome.failNotFinalized :=
  ((claim_C5_verify_spec_hash_gate id c5yaml c5sha c5env rfl
      (cp "spec_hash: pending") (cp "body") (by decide) (fun _ => rfl)).2
    [(cp "spec_hash", cp "pending")] rfl).1 (Or.inr (Or.inl (by decide)))

/-- Boolean negation equal to true. -/
theorem bnot_eq_true_iff (a : Bool) : (!a) = true ↔ a = false := by
  cases a <;> simp

/-- Boolean negation equal to false. -/
theorem bnot_eq_false_iff (a : Bool) : (!a) = false ↔ a = true := by
  cases a <;> simp

/-- Boolean disjunction equal to false. -/
theorem bor_eq_false_iff2 (a b : Bool) : (a || b) = false ↔ a = false ∧ b = false := by
  cases a <;> cases b <;> simp

/-- A Boolean that is not true is false. -/
theorem bfalse_of_not_true (a : Bool) (h : ¬a = true) : a = false := by
  cases a
  · rfl
  · exact absurd rfl h

/-- Emptiness test of a list of strings. -/
theorem isEmpty_true_iff (l : List (List Nat)) : l.isEmpty = true ↔ l = [] := by
  cases l <;> simp

/-- A three-condition exclusion filter is empty exactly when every
non-excluded element meets the final inclusion condition. -/
theorem filter3_eq_nil (l : List (List Nat)) (A B C : List Nat → Bool) :
    l.filter (fun x => !A x && !B x && !C x) = [] ↔
      ∀ x ∈ l, A x = false → B x = false → C x = true := by
  rw [List.filter_eq_nil_iff]
  constructor
  · intro h x hx hA hB
    by_cases hC : C x = true
    · exact hC
    · exfalso
      apply h x hx
      show (!A x && !B x && !C x) = true
      rw [hA, hB, bfalse_of_not_true _ hC]
      rfl
  · intro h x hx hcontra
    have hp2 : (!A x && !B x && !C x) = true := hcontra
    cases hAx : A x with
    | true => rw [hAx] at hp2; simp at hp2
    | false =>
      cases hBx : B x with
      | true => rw [hBx] at hp2; simp at hp2
      | false =>
        rw [h x hx hAx hBx] at hp2
        simp at hp2

/-- A four-condition exclusion filter is empty exactly when every
non-excluded element meets one of the two final inclusion conditions. -/
theorem filter4_eq_nil (l : List (List Nat)) (A B C D : List Nat → Bool) :
    l.filter (fun x => !A x && !B x && !C x && !D x) = [] ↔
      ∀ x ∈ l, A x = false → B x = false → (C x = true ∨ D x = true) := by
  rw [List.filter_eq_nil_iff]
  constructor
  · intro h x hx hA hB
    by_cases hC : C x = true
    · exact Or.inl hC
    · by_cases hD : D x = true
      · exact Or.inr hD
      · exfalso
        apply h x hx
        show (!A x && !B x && !C x && !D x) = true
        rw [hA, hB, bfalse_of_not_true _ hC, bfalse_of_not_true _ hD]
        rfl
  · intro h x hx hcontra
    have hp2 : (!A x && !B x && !C x && !D x) = true := hcontra
    cases hAx : A x with
    | true => rw [hAx] at hp2; simp at hp2
    | false =>
      cases hBx : B x with
      | true => rw [hBx] at hp2; simp at hp2
      | false =>
        rcases h x hx hAx hBx with hc | hd
        · rw [hc] at hp2; simp at hp2
        · rw [hd] at hp2; simp at hp2

/-- Membership in a three-condition exclusion filter. -/
theorem mem_filter3_excl (l : List (List Nat)) (A B C : List Nat → Bool) (x : List Nat) :
    x ∈ l.filter (fun y => !A y && !B y && !C y) ↔
      x ∈ l ∧ A x = false ∧ B x = false ∧ C x = false := by
  rw [List.mem_filter]
  constructor
  · rintro ⟨hx, hp⟩
    have hp2 : (!A x && !B x && !C x) = true := hp
    refine ⟨hx, ?_, ?_, ?_⟩
    · cases hAx : A x
      · rfl
      · rw [hAx] at hp2; simp at hp2
    · cases hBx : B x
      · rfl
      · rw [hBx] at hp2; simp at hp2
    · cases hCx : C x
      · rfl
      · rw [hCx] at hp2; simp at hp2
  · rintro ⟨hx, hA, hB, hC⟩
    refine ⟨hx, ?_⟩
    show (!A x && !B x && !C x) = true
    rw [hA, hB, hC]
    rfl

/-- Membership in a four-condition exclusion filter. -/
theorem mem_filter4_excl (l : List (List Nat)) (A B C D : List Nat → Bool) (x : List Nat) :
    x ∈ l.filter (fun y => !A y && !B y && !C y && !D y) ↔
      x ∈ l ∧ A x = false ∧ B x = false ∧ C x = false ∧ D x = false := by
  rw [List.mem_filter]
  constructor
  · rintro ⟨hx, hp⟩
    have hp2 : (!A x && !B x && !C x && !D x) = true := hp
    refine ⟨hx, ?_, ?_, ?_, ?_⟩
    · cases hAx : A x
      · rfl
      · rw [hAx] at hp2; simp at hp2
    · cases hBx : B x
      · rfl
      · rw [hBx] at hp2; simp at hp2
    · cases hCx : C x
      · rfl
      · rw [hCx] at hp2; simp at hp2
    · cases hDx : D x
      · rfl
      · rw [hDx] at hp2; simp at hp2
  · rintro ⟨hx, hA, hB, hC, hD⟩
    refine ⟨hx, ?_⟩
    show (!A x && !B x && !C x && !D x) = true
    rw [hA, hB, hC, hD]
    rfl

/-- C6 (amended): for a parseable source file, `cmd_check_deps` passes
exactly when every collected top-level import that is neither a standard
library module nor a local `src/` directory appears case-insensitively in
the allow-list and, if a dependency lock file exists AND its extracted
package-name set is non-empty, also appears in the lock set under the
lower-cased name or its underscore-to-hyphen variant; otherwise it
persists a report with fields policy_violations, lock_file_violations and
policy_version to `<stem>.deps_violation.json`, where the two violation
lists hold exactly the offending imports of each check. -/
theorem claim_C6_check_deps_amended (env : DepsEnv) (hparse : env.parseOk = true) :
    (cmd_check_deps env = DepsOutcome.passOk ↔
      ∀ imp ∈ depsImports env.nodes,
        env.stdlibs.contains imp = false →
        env.srcExists imp = false →
        ((env.allowedPkgs.map asciiLower).contains (asciiLower imp) = true ∧
         (env.lockExists = true → env.lockNames ≠ [] →
           ((env.lockNames.map asciiLower).contains (asciiLower imp) = true ∨
            (env.lockNames.map asciiLower).contains (dashNorm (asciiLower imp)) = true)))) ∧
    (cmd_check_deps env ≠ DepsOutcome.passOk →
      ∃ P L, cmd_check_deps env =
          DepsOutcome.failReport (env.targetStem ++ cp ".deps_violation.json")
            (depsReport P L env.policyVersion) ∧
        (∀ imp, imp ∈ P ↔ (imp ∈ depsImports env.nodes ∧
          env.stdlibs.contains imp = false ∧ env.srcExists imp = false ∧
          (env.allowedPkgs.map asciiLower).contains (asciiLower imp) = false)) ∧
        (∀ imp, imp ∈ L ↔ (imp ∈ depsImports env.nodes ∧
          env.lockExists = true ∧ env.lockNames ≠ [] ∧
          env.stdlibs.contains imp = false ∧ env.srcExists imp = false ∧
          (env.lockNames.map asciiLower).contains (asciiLower imp) = false ∧
          (env.lockNames.map asciiLower).contains (dashNorm (asciiLower imp)) = false))) := by
  obtain ⟨po, nds, stds, srcE, allowed, lockE, lockN, stem, pv⟩ := env
  have hpo : po = true := hparse
  subst hpo
  dsimp only
  cases lockE with
  | false =>
    have h0 : cmd_check_deps ⟨true, nds, stds, srcE, allowed, false, lockN, stem, pv⟩ =
        (if !((depsImports nds).dedup.filter (fun x =>
              !stds.contains x && !srcE x &&
                !(allowed.map asciiLower).contains (asciiLower x))).isEmpty || false then
          DepsOutcome.failReport (stem ++ cp ".deps_violation.json")
            (depsReport
              ((depsImports nds).dedup.filter (fun x =>
                !stds.contains x && !srcE x &&
                  !(allowed.map asciiLower).contains (asciiLower x)))
              [] pv)
        else DepsOutcome.passOk) := rfl
    rw [Bool.or_false] at h0
    rw [h0]
    constructor
    · constructor
      · intro hp
        by_cases hP : ((depsImports nds).dedup.filter (fun x =>
            !stds.contains x && !srcE x &&
              !(allowed.map asciiLower).contains (asciiLower x))).isEmpty = true
        · intro imp hmem hA hB
          have hPnil := (isEmpty_true_iff _).mp hP
          refine ⟨(filter3_eq_nil _ _ _ _).mp hPnil imp (List.mem_dedup.mpr hmem) hA hB, ?_⟩
          intro hfe
          exact absurd hfe Bool.false_ne_true
        · have hcond : (!((depsImports nds).dedup.filter (fun x =>
              !stds.contains x && !srcE x &&
                !(allowed.map asciiLower).contains (asciiLower x))).isEmpty) = true :=
            (bnot_eq_true_iff _).mpr (bfalse_of_not_true _ hP)
          rw [if_pos hcond] at hp
          exact DepsOutcome.noConfusion hp
      · intro hR
        have hPnil : (depsImports nds).dedup.filter (fun x =>
            !stds.contains x && !srcE x &&
              !(allowed.map asciiLower).contains (asciiLower x)) = [] :=
          (filter3_eq_nil _ _ _ _).mpr
            (fun x hx hA hB => (hR x (List.mem_dedup.mp hx) hA hB).1)
        rw [hPnil]
        rfl
    · intro hne
      by_cases hP : ((depsImports nds).dedup.filter (fun x =>
          !stds.contains x && !srcE x &&
            !(allowed.map asciiLower).contains (asciiLower x))).isEmpty = true
      · exfalso
        apply hne
        rw [hP]
        rfl
      · have hP2 : ((depsImports nds).dedup.filter (fun x =>
            !stds.contains x && !srcE x &&
              !(allowed.map asciiLower).contains (asciiLower x))).isEmpty = false :=
          bfalse_of_not_true _ hP
        refine ⟨(depsImports nds).dedup.filter (fun x =>
            !stds.contains x && !srcE x &&
              !(allowed.map asciiLower).contains (asciiLower x)), [], ?_, ?_, ?_⟩
        · rw [hP2]
          rfl
        · intro imp
          rw [mem_filter3_excl, List.mem_dedup]
        · intro imp
          constructor
          · intro h
            exact absurd h (List.not_mem_nil imp)
          · rintro ⟨-, hfe, -⟩
            exact absurd hfe Bool.false_ne_true
  | true =>
    cases lockN with
    | nil =>
      have h0 : cmd_check_deps ⟨true, nds, stds, srcE, allowed, true, [], stem, pv⟩ =
          (if !((depsImports nds).dedup.filter (fun x =>
                !stds.contains x && !srcE x &&
                  !(allowed.map asciiLower).contains (asciiLower x))).isEmpty || false then
            DepsOutcome.failReport (stem ++ cp ".deps_violation.json")
              (depsReport
                ((depsImports nds).dedup.filter (fun x =>
                  !stds.contains x && !srcE x &&
                    !(allowed.map asciiLower).contains (asciiLower x)))
                [] pv)
          else DepsOutcome.passOk) := rfl
      rw [Bool.or_false] at h0
      rw [h0]
      constructor
      · constructor
        · intro hp
          by_cases hP : ((depsImports nds).dedup.filter (fun x =>
              !stds.contains x && !srcE x &&
                !(allowed.map asciiLower).contains (asciiLower x))).isEmpty = true
          · intro imp hmem hA hB
            have hPnil := (isEmpty_true_iff _).mp hP
            refine ⟨(filter3_eq_nil _ _ _ _).mp hPnil imp (List.mem_dedup.mpr hmem) hA hB, ?_⟩
            intro _ hne'
            exact absurd rfl hne'
          · have hcond : (!((depsImports nds).dedup.filter (fun x =>
                !stds.contains x && !srcE x &&
                  !(allowed.map asciiLower).contains (asciiLower x))).isEmpty) = true :=
              (bnot_eq_true_iff _).mpr (bfalse_of_not_true _ hP)
            rw [if_pos hcond] at hp
            exact DepsOutcome.noConfusion hp
        · intro hR
          have hPnil : (depsImports nds).dedup.filter (fun x =>
              !stds.contains x && !srcE x &&
                !(allowed.map asciiLower).contains (asciiLower x)) = [] :=
            (filter3_eq_nil _ _ _ _).mpr
              (fun x hx hA hB => (hR x (List.mem_dedup.mp hx) hA hB).1)
          rw [hPnil]
          rfl
      · intro hne
        by_cases hP : ((depsImports nds).dedup.filter (fun x =>
            !stds.contains x && !srcE x &&
              !(allowed.map asciiLower).contains (asciiLower x))).isEmpty = true
        · exfalso
          apply hne
          rw [hP]
          rfl
        · have hP2 : ((depsImports nds).dedup.filter (fun x =>
              !stds.contains x && !srcE x &&
                !(allowed.map asciiLower).contains (asciiLower x))).isEmpty = false :=
            bfalse_of_not_true _ hP
          refine ⟨(depsImports nds).dedup.filter (fun x =>
              !stds.contains x && !srcE x &&
                !(allowed.map asciiLower).contains (asciiLower x)), [], ?_, ?_, ?_⟩
          · rw [hP2]
            rfl
          · intro imp
            rw [mem_filter3_excl, List.mem_dedup]
          · intro imp
            constructor
            · intro h
              exact absurd h (List.not_mem_nil imp)
            · rintro ⟨-, -, hne', -⟩
              exact absurd rfl hne'
    | cons a t =>
      have h0 : cmd_check_deps ⟨true, nds, stds, srcE, allowed, true, a :: t, stem, pv⟩ =
          (if !((depsImports nds).dedup.filter (fun x =>
                !stds.contains x && !srcE x &&
                  !(allowed.map asciiLower).contains (asciiLower x))).isEmpty ||
              !((depsImports nds).dedup.filter (fun x =>
                !stds.contains x && !srcE x &&
                  !((a :: t).map asciiLower).contains (asciiLower x) &&
                  !((a :: t).map asciiLower).contains (dashNorm (asciiLower x)))).isEmpty then
            DepsOutcome.failReport (stem ++ cp ".deps_violation.json")
              (depsReport
                ((depsImports nds).dedup.filter (fun x =>
                  !stds.contains x && !srcE x &&
                    !(allowed.map asciiLower).contains (asciiLower x)))
                ((depsImports nds).dedup.filter (fun x =>
                  !stds.contains x && !srcE x &&
                    !((a :: t).map asciiLower).contains (asciiLower x) &&
                    !((a :: t).map asciiLower).contains (dashNorm (asciiLower x))))
                pv)
          else DepsOutcome.passOk) := rfl
      rw [h0]
      constructor
      · constructor
        · intro hp
          by_cases hc : ((!((depsImports nds).dedup.filter (fun x =>
                !stds.contains x && !srcE x &&
                  !(allowed.map asciiLower).contains (asciiLower x))).isEmpty) ||
              (!((depsImports nds).dedup.filter (fun x =>
                !stds.contains x && !srcE x &&
                  !((a :: t).map asciiLower).contains (asciiLower x) &&
                  !((a :: t).map asciiLower).contains (dashNorm (asciiLower x)))).isEmpty)) = true
          · rw [if_pos hc] at hp
            exact DepsOutcome.noConfusion hp
          · have hc2 := bfalse_of_not_true _ hc
            rw [bor_eq_false_iff2] at hc2
            obtain ⟨hc3, hc4⟩ := hc2
            rw [bnot_eq_false_iff, isEmpty_true_iff] at hc3 hc4
            intro imp hmem hA hB
            refine ⟨(filter3_eq_nil _ _ _ _).mp hc3 imp (List.mem_dedup.mpr hmem) hA hB, ?_⟩
            intro _ _
            exact (filter4_eq_nil _ _ _ _ _).mp hc4 imp (List.mem_dedup.mpr hmem) hA hB
        · intro hR
          have hPnil : (depsImports nds).dedup.filter (fun x =>
              !stds.contains x && !srcE x &&
                !(allowed.map asciiLower).contains (asciiLower x)) = [] :=
            (filter3_eq_nil _ _ _ _).mpr
              (fun x hx hA hB => (hR x (List.mem_dedup.mp hx) hA hB).1)
          have hLnil : (depsImports nds).dedup.filter (fun x =>
              !stds.contains x && !srcE x &&
                !((a :: t).map asciiLower).contains (asciiLower x) &&
                !((a :: t).map asciiLower).contains (dashNorm (asciiLower x))) = [] :=
            (filter4_eq_nil _ _ _ _ _).mpr
              (fun x hx hA hB =>
                (hR x (List.mem_dedup.mp hx) hA hB).2 rfl (List.cons_ne_nil a t))
          rw [hPnil, hLnil]
          rfl
      · intro hne
        by_cases hc : ((!((depsImports nds).dedup.filter (fun x =>
              !stds.contains x && !srcE x &&
                !(allowed.map asciiLower).contains (asciiLower x))).isEmpty) ||
            (!((depsImports nds).dedup.filter (fun x =>
              !stds.contains x && !srcE x &&
                !((a :: t).map asciiLower).contains (asciiLower x) &&
                !((a :: t).map asciiLower).contains (dashNorm (asciiLower x)))).isEmpty)) = true
        · refine ⟨(depsImports nds).dedup.filter (fun x =>
              !stds.contains x && !srcE x &&
                !(allowed.map asciiLower).contains (asciiLower x)),
            (depsImports nds).dedup.filter (fun x =>
              !stds.contains x && !srcE x &&
                !((a :: t).map asciiLower).contains (asciiLower x) &&
                !((a :: t).map asciiLower).contains (dashNorm (asciiLower x))), ?_, ?_, ?_⟩
          · rw [if_pos hc]
          · intro imp
            rw [mem_filter3_excl, List.mem_dedup]
          · intro imp
            rw [mem_filter4_excl, List.mem_dedup]
            constructor
            · rintro ⟨hm, hA, hB, hC, hD⟩
              exact ⟨hm, rfl, List.cons_ne_nil a t, hA, hB, hC, hD⟩
            · rintro ⟨hm, -, -, hA, hB, hC, hD⟩
              exact ⟨hm, hA, hB, hC, hD⟩
        · exfalso
          apply hne
          rw [bfalse_of_not_true _ hc]
          rfl

/-- The C6 counterexample environment: the lock file exists but its
extracted package-name set is empty, and the sole import `requests` is
allow-listed. -/
def c6env : DepsEnv :=
  { parseOk := true, nodes := [PyNode.importStmt [cp "requests"]], stdlibs := [],
    srcExists := fun _ => false, allowedPkgs := [cp "requests"],
    lockExists := true, lockNames := [], targetStem := cp "t",
    policyVersion := cp "1" }

/-- C6 counterexample: with an existing lock file whose extracted
package-name set is empty, an import absent from that set (but
allow-listed) still passes `cmd_check_deps`, contradicting the claim that
lock-set membership is required whenever a lock file exists. -/
theorem claim_C6_counterexample :
    c6env.lockExists = true ∧
    cp "requests" ∈ depsImports c6env.nodes ∧
    c6env.stdlibs.contains (cp "requests") = false ∧
    c6env.srcExists (cp "requests") = false ∧
    (c6env.lockNames.map asciiLower).contains (asciiLower (cp "requests")) = false ∧
    (c6env.lockNames.map asciiLower).contains (dashNorm (asciiLower (cp "requests"))) = false ∧
    cmd_check_deps c6env = DepsOutcome.passOk :=
  ⟨rfl, by decide, rfl, rfl, rfl, rfl, rfl⟩

/-- The C6 witness environment: a stdlib import plus an allow-listed
package import that is present in the non-empty lock set. -/
def c6wenv : DepsEnv :=
  { parseOk := true,
    nodes := [PyNode.importStmt [cp "requests"], PyNode.importStmt [cp "os"]],
    stdlibs := [cp "os"], srcExists := fun _ => false,
    allowedPkgs := [cp "requests"], lockExists := true,
    lockNames := [cp "requests"], targetStem := cp "t", policyVersion := cp "1" }

/-- C6 witness: a file importing only a standard-library module and an
allow-listed, lock-listed package passes the dependency check. -/
theorem claim_C6_witness : cmd_check_deps c6wenv = DepsOutcome.passOk :=
  (claim_C6_check_deps_amended c6wenv rfl).1.mpr (by decide)

/-- The spec-side description of a banned item of the test scanner: a
top-level imported module in the banned set (via `import` or a
`from X import Y` with a module), or `Call:<name>` for a call to a banned
callee name. -/
def specBannedItem (env : ScanEnv) (x : List Nat) : Prop :=
  (∃ names, PyNode.importStmt names ∈ env.nodes ∧
    ∃ n, n ∈ names ∧ topMod n = x ∧ env.bannedModules.contains x = true) ∨
  (∃ mm lvl, PyNode.importFrom (some mm) lvl ∈ env.nodes ∧ mm ≠ [] ∧
    topMod mm = x ∧ env.bannedModules.contains x = true) ∨
  (∃ n, PyNode.callNamed (some n) ∈ env.nodes ∧
    env.bannedCalls.contains n = true ∧ x = cp "Call:" ++ n)

/-- The spec-side description of a restricted item of the test scanner: a
top-level imported module in the restricted set. -/
def specRestrictedItem (env : ScanEnv) (x : List Nat) : Prop :=
  (∃ names, PyNode.importStmt names ∈ env.nodes ∧
    ∃ n, n ∈ names ∧ topMod n = x ∧ env.restrictedModules.contains x = true) ∨
  (∃ mm lvl, PyNode.importFrom (some mm) lvl ∈ env.nodes ∧ mm ≠ [] ∧
    topMod mm = x ∧ env.restrictedModules.contains x = true)

/-- The banned items a single node contributes, characterized. -/
theorem mem_nodeBanned_iff (env : ScanEnv) (node : PyNode) (x : List Nat) :
    x ∈ nodeBanned env node ↔
      ((∃ names, node = PyNode.importStmt names ∧
         ∃ n, n ∈ names ∧ topMod n = x ∧ env.bannedModules.contains x = true) ∨
       (∃ mm lvl, node = PyNode.importFrom (some mm) lvl ∧ mm ≠ [] ∧
         topMod mm = x ∧ env.bannedModules.contains x = true) ∨
       (∃ n, node = PyNode.callNamed (some n) ∧
         env.bannedCalls.contains n = true ∧ x = cp "Call:" ++ n)) := by
  cases node with
  | importStmt names =>
    constructor
    · intro h
      have h2 : x ∈ (names.map topMod).filter
          (fun t => env.bannedModules.contains t) := h
      rw [List.mem_filter, List.mem_map] at h2
      obtain ⟨⟨n, hn, hx⟩, hb⟩ := h2
      exact Or.inl ⟨names, rfl, n, hn, hx, hb⟩
    · rintro (⟨names', heq, n, hn, hx, hb⟩ | ⟨mm, lvl, heq, hrest⟩ | ⟨n, heq, hrest⟩)
      · injection heq with h
        subst h
        show x ∈ (names.map topMod).filter (fun t => env.bannedModules.contains t)
        rw [List.mem_filter, List.mem_map]
        exact ⟨⟨n, hn, hx⟩, hb⟩
      · exact PyNode.noConfusion heq
      · exact PyNode.noConfusion heq
  | importFrom m lvl =>
    cases m with
    | none =>
      constructor
      · intro h
        exact absurd h (List.not_mem_nil x)
      · rintro (⟨names, heq, hrest⟩ | ⟨mm', lvl', heq, hrest⟩ | ⟨n, heq, hrest⟩)
        · exact PyNode.noConfusion heq
        · injection heq with h1 h2
          exact Option.noConfusion h1
        · exact PyNode.noConfusion heq
    | some mm =>
      cases mm with
      | nil =>
        constructor
        · intro h
          exact absurd h (List.not_mem_nil x)
        · rintro (⟨names, heq, hrest⟩ | ⟨mm', lvl', heq, hne, hrest⟩ | ⟨n, heq, hrest⟩)
          · exact PyNode.noConfusion heq
          · injection heq with h1 h2
            injection h1 with h1'
            exact absurd h1'.symm hne
          · exact PyNode.noConfusion heq
      | cons c r =>
        constructor
        · intro h
          have h2 : x ∈ ([topMod (c :: r)]).filter
              (fun t => env.bannedModules.contains t) := h
          rw [List.mem_filter] at h2
          obtain ⟨hmem, hb⟩ := h2
          have hx : x = topMod (c :: r) := List.mem_singleton.mp hmem
          exact Or.inr (Or.inl ⟨c :: r, lvl, rfl, List.cons_ne_nil c r, hx.symm, hb⟩)
        · rintro (⟨names, heq, hrest⟩ | ⟨mm', lvl', heq, hne, htop, hb⟩ | ⟨n, heq, hrest⟩)
          · exact PyNode.noConfusion heq
          · injection heq with h1 h2
            injection h1 with h1'
            subst h1'
            show x ∈ ([topMod (c :: r)]).filter (fun t => env.bannedModules.contains t)
            rw [List.mem_filter]
            exact ⟨List.mem_singleton.mpr htop.symm, hb⟩
          · exact PyNode.noConfusion heq
  | callNamed onm =>
    cases onm with
    | none =>
      constructor
      · intro h
        exact absurd h (List.not_mem_nil x)
      · rintro (⟨names, heq, hrest⟩ | ⟨mm', lvl', heq, hrest⟩ | ⟨n, heq, hrest⟩)
        · exact PyNode.noConfusion heq
        · exact PyNode.noConfusion heq
        · injection heq with h1
          exact Option.noConfusion h1
    | some nm =>
      constructor
      · intro h
        have h2 : x ∈ (if env.bannedCalls.contains nm then [cp "Call:" ++ nm] else []) := h
        by_cases hb : env.bannedCalls.contains nm = true
        · rw [if_pos hb] at h2
          exact Or.inr (Or.inr ⟨nm, rfl, hb, List.mem_singleton.mp h2⟩)
        · rw [if_neg hb] at h2
          exact absurd h2 (List.not_mem_nil x)
      · rintro (⟨names, heq, hrest⟩ | ⟨mm', lvl', heq, hrest⟩ | ⟨n, heq, hb, hx⟩)
        · exact PyNode.noConfusion heq
        · exact PyNode.noConfusion heq
        · injection heq with h1
          injection h1 with h1'
          subst h1'
          show x ∈ (if env.bannedCalls.contains nm then [cp "Call:" ++ nm] else [])
          rw [if_pos hb]
          exact List.mem_singleton.mpr hx
  | otherNode =>
    constructor
    · intro h
      exact absurd h (List.not_mem_nil x)
    · rintro (⟨names, heq, hrest⟩ | ⟨mm', lvl', heq, hrest⟩ | ⟨n, heq, hrest⟩)
      · exact PyNode.noConfusion heq
      · exact PyNode.noConfusion heq
      · exact PyNode.noConfusion heq

/-- The restricted items a single node contributes, characterized. -/
theorem mem_nodeRestricted_iff (env : ScanEnv) (node : PyNode) (x : List Nat) :
    x ∈ nodeRestricted env node ↔
      ((∃ names, node = PyNode.importStmt names ∧
         ∃ n, n ∈ names ∧ topMod n = x ∧ env.restrictedModules.contains x = true) ∨
       (∃ mm lvl, node = PyNode.importFrom (some mm) lvl ∧ mm ≠ [] ∧
         topMod mm = x ∧ env.restrictedModules.contains x = true)) := by
  cases node with
  | importStmt names =>
    constructor
    · intro h
      have h2 : x ∈ (names.map topMod).filter
          (fun t => env.restrictedModules.contains t) := h
      rw [List.mem_filter, List.mem_map] at h2
      obtain ⟨⟨n, hn, hx⟩, hb⟩ := h2
      exact Or.inl ⟨names, rfl, n, hn, hx, hb⟩
    · rintro (⟨names', heq, n, hn, hx, hb⟩ | ⟨mm, lvl, heq, hrest⟩)
      · injection heq with h
        subst h
        show x ∈ (names.map topMod).filter (fun t => env.restrictedModules.contains t)
        rw [List.mem_filter, List.mem_map]
        exact ⟨⟨n, hn, hx⟩, hb⟩
      · exact PyNode.noConfusion heq
  | importFrom m lvl =>
    cases m with
    | none =>
      constructor
      · intro h
        exact absurd h (List.not_mem_nil x)
      · rintro (⟨names, heq, hrest⟩ | ⟨mm', lvl', heq, hrest⟩)
        · exact PyNode.noConfusion heq
        · injection heq with h1 h2
          exact Option.noConfusion h1
    | some mm =>
      cases mm with
      | nil =>
        constructor
        · intro h
          exact absurd h (List.not_mem_nil x)
        · rintro (⟨names, heq, hrest⟩ | ⟨mm', lvl', heq, hne, hrest⟩)
          · exact PyNode.noConfusion heq
          · injection heq with h1 h2
            injection h1 with h1'
            exact absurd h1'.symm hne
      | cons c r =>
        constructor
        · intro h
          have h2 : x ∈ ([topMod (c :: r)]).filter
              (fun t => env.restrictedModules.contains t) := h
          rw [List.mem_filter] at h2
          obtain ⟨hmem, hb⟩ := h2
          have hx : x = topMod (c :: r) := List.mem_singleton.mp hmem
          exact Or.inr ⟨c :: r, lvl, rfl, List.cons_ne_nil c r, hx.symm, hb⟩
        · rintro (⟨names, heq, hrest⟩ | ⟨mm', lvl', heq, hne, htop, hb⟩)
          · exact PyNode.noConfusion heq
          · injection heq with h1 h2
            injection h1 with h1'
            subst h1'
            show x ∈ ([topMod (c :: r)]).filter (fun t => env.restrictedModules.contains t)
            rw [List.mem_filter]
            exact ⟨List.mem_singleton.mpr htop.symm, hb⟩
  | callNamed onm =>
    constructor
    · intro h
      cases onm with
      | none => exact absurd h (List.not_mem_nil x)
      | some nm => exact absurd h (List.not_mem_nil x)
    · rintro (⟨names, heq, hrest⟩ | ⟨mm', lvl', heq, hrest⟩)
      · exact PyNode.noConfusion heq
      · exact PyNode.noConfusion heq
  | otherNode =>
    constructor
    · intro h
      exact absurd h (List.not_mem_nil x)
    · rintro (⟨names, heq, hrest⟩ | ⟨mm', lvl', heq, hrest⟩)
      · exact PyNode.noConfusion heq
      · exact PyNode.noConfusion heq

/-- Membership in the walked banned list comes from some node. -/
theorem scanWalk_fst_mem (env : ScanEnv) (nds : List PyNode) (x : List Nat) :
    x ∈ (scanWalk env nds).1 ↔ ∃ node ∈ nds, x ∈ nodeBanned env node := by
  induction nds with
  | nil =>
    constructor
    · intro h
      exact absurd h (List.not_mem_nil x)
    · rintro ⟨node, hn, _⟩
      exact absurd hn (List.not_mem_nil node)
  | cons node rest ih =>
    have hstep : (scanWalk env (node :: rest)).1 =
        nodeBanned env node ++ (scanWalk env rest).1 := rfl
    rw [hstep, List.mem_append, ih]
    constructor
    · rintro (h | ⟨n, hn, hx⟩)
      · exact ⟨node, List.mem_cons_self node rest, h⟩
      · exact ⟨n, List.mem_cons_of_mem node hn, hx⟩
    · rintro ⟨n, hn, hx⟩
      rcases List.mem_cons.mp hn with h | h
      · subst h
        exact Or.inl hx
      · exact Or.inr ⟨n, h, hx⟩

/-- Membership in the walked restricted list comes from some node. -/
theorem scanWalk_snd_mem (env : ScanEnv) (nds : List PyNode) (x : List Nat) :
    x ∈ (scanWalk env nds).2 ↔ ∃ node ∈ nds, x ∈ nodeRestricted env node := by
  induction nds with
  | nil =>
    constructor
    · intro h
      exact absurd h (List.not_mem_nil x)
    · rintro ⟨node, hn, _⟩
      exact absurd hn (List.not_mem_nil node)
  | cons node rest ih =>
    have hstep : (scanWalk env (node :: rest)).2 =
        nodeRestricted env node ++ (scanWalk env rest).2 := rfl
    rw [hstep, List.mem_append, ih]
    constructor
    · rintro (h | ⟨n, hn, hx⟩)
      · exact ⟨node, List.mem_cons_self node rest, h⟩
      · exact ⟨n, List.mem_cons_of_mem node hn, hx⟩
    · rintro ⟨n, hn, hx⟩
      rcases List.mem_cons.mp hn with h | h
      · subst h
        exact Or.inl hx
      · exact Or.inr ⟨n, h, hx⟩

/-- The walked banned list holds exactly the spec-described banned items. -/
theorem scanWalk_fst_spec (env : ScanEnv) (x : List Nat) :
    x ∈ (scanWalk env env.nodes).1 ↔ specBannedItem env x := by
  rw [scanWalk_fst_mem]
  constructor
  · rintro ⟨node, hn, hx⟩
    rcases (mem_nodeBanned_iff env node x).mp hx with
      ⟨names, heq, hrest⟩ | ⟨mm, lvl, heq, hrest⟩ | ⟨n, heq, hrest⟩
    · subst heq
      exact Or.inl ⟨names, hn, hrest⟩
    · subst heq
      exact Or.inr (Or.inl ⟨mm, lvl, hn, hrest⟩)
    · subst heq
      exact Or.inr (Or.inr ⟨n, hn, hrest⟩)
  · rintro (⟨names, hn, hrest⟩ | ⟨mm, lvl, hn, hrest⟩ | ⟨n, hn, hrest⟩)
    · exact ⟨PyNode.importStmt names, hn,
        (mem_nodeBanned_iff env _ x).mpr (Or.inl ⟨names, rfl, hrest⟩)⟩
    · exact ⟨PyNode.importFrom (some mm) lvl, hn,
        (mem_nodeBanned_iff env _ x).mpr (Or.inr (Or.inl ⟨mm, lvl, rfl, hrest⟩))⟩
    · exact ⟨PyNode.callNamed (some n), hn,
        (mem_nodeBanned_iff env _ x).mpr (Or.inr (Or.inr ⟨n, rfl, hrest⟩))⟩

/-- The walked restricted list holds exactly the spec-described restricted
items. -/
theorem scanWalk_snd_spec (env : ScanEnv) (x : List Nat) :
    x ∈ (scanWalk env env.nodes).2 ↔ specRestrictedItem env x := by
  rw [scanWalk_snd_mem]
  constructor
  · rintro ⟨node, hn, hx⟩
    rcases (mem_nodeRestricted_iff env node x).mp hx with
      ⟨names, heq, hrest⟩ | ⟨mm, lvl, heq, hrest⟩
    · subst heq
      exact Or.inl ⟨names, hn, hrest⟩
    · subst heq
      exact Or.inr ⟨mm, lvl, hn, hrest⟩
  · rintro (⟨names, hn, hrest⟩ | ⟨mm, lvl, hn, hrest⟩)
    · exact ⟨PyNode.importStmt names, hn,
        (mem_nodeRestricted_iff env _ x).mpr (Or.inl ⟨names, rfl, hrest⟩)⟩
    · exact ⟨PyNode.importFrom (some mm) lvl, hn,
        (mem_nodeRestricted_iff env _ x).mpr (Or.inr ⟨mm, lvl, rfl, hrest⟩)⟩

/-- `sorted(set(l))` has no duplicates. -/
theorem sortedUnique_nodup (l : List (List Nat)) : (sortedUnique l).Nodup :=
  (List.perm_insertionSort cpLe l.dedup).nodup_iff.mpr l.nodup_dedup

/-- `sorted(set(l))` is sorted in the lexicographic order. -/
theorem sortedUnique_sorted (l : List (List Nat)) : (sortedUnique l).Pairwise cpLe :=
  List.sorted_insertionSort cpLe l.dedup

/-- `sorted(set(l))` holds exactly the members of `l`. -/
theorem sortedUnique_mem (l : List (List Nat)) (x : List Nat) :
    x ∈ sortedUnique l ↔ x ∈ l := by
  unfold sortedUnique
  rw [(List.perm_insertionSort cpLe l.dedup).mem_iff, List.mem_dedup]

/-- C7: for a parseable source file, `cmd_scan_tests` raises a policy
failure listing the sorted unique set of banned items (banned imported
modules, and `Call:<name>` entries for calls to banned callee names) and
persists an incident report exactly when at least one banned item exists;
with no banned item but at least one restricted import it warns and
passes; with neither it passes silently. -/
theorem claim_C7_scan_tests (env : ScanEnv) (hparse : env.parseOk = true) :
    ((scanWalk env env.nodes).1 ≠ [] →
      cmd_scan_tests env =
        ScanOutcome.failIncident
          (JValue.jobj
            [(cp "violations", JValue.jarr ((scanWalk env env.nodes).1.map JValue.jstr)),
             (cp "file", JValue.jstr env.targetName)])
          (sortedUnique (scanWalk env env.nodes).1) ∧
      (sortedUnique (scanWalk env env.nodes).1).Nodup ∧
      (sortedUnique (scanWalk env env.nodes).1).Pairwise cpLe ∧
      (∀ x, x ∈ sortedUnique (scanWalk env env.nodes).1 ↔ specBannedItem env x)) ∧
    ((scanWalk env env.nodes).1 = [] → (scanWalk env env.nodes).2 ≠ [] →
      cmd_scan_tests env = ScanOutcome.warnPass (scanWalk env env.nodes).2) ∧
    ((scanWalk env env.nodes).1 = [] → (scanWalk env env.nodes).2 = [] →
      cmd_scan_tests env = ScanOutcome.passOk) ∧
    (∀ x, x ∈ (scanWalk env env.nodes).1 ↔ specBannedItem env x) ∧
    (∀ x, x ∈ (scanWalk env env.nodes).2 ↔ specRestrictedItem env x) := by
  have h0 : cmd_scan_tests env =
      (if !(scanWalk env env.nodes).1.isEmpty then
        ScanOutcome.failIncident
          (JValue.jobj
            [(cp "violations", JValue.jarr ((scanWalk env env.nodes).1.map JValue.jstr)),
             (cp "file", JValue.jstr env.targetName)])
          (sortedUnique (scanWalk env env.nodes).1)
      else if !(scanWalk env env.nodes).2.isEmpty then
        ScanOutcome.warnPass (scanWalk env env.nodes).2
      else ScanOutcome.passOk) := by
    unfold cmd_scan_tests
    rw [hparse]
    rfl
  refine ⟨?_, ?_, ?_, ?_, ?_⟩
  · intro hb
    have hE : (scanWalk env env.nodes).1.isEmpty = false := by
      cases hx : (scanWalk env env.nodes).1 with
      | nil => exact absurd hx hb
      | cons y ys => rfl
    refine ⟨?_, sortedUnique_nodup _, sortedUnique_sorted _, ?_⟩
    · rw [h0, hE]
      rfl
    · intro x
      rw [sortedUnique_mem, scanWalk_fst_spec]
  · intro ha hb
    have hE : (scanWalk env env.nodes).2.isEmpty = false := by
      cases hx : (scanWalk env env.nodes).2 with
      | nil => exact absurd hx hb
      | cons y ys => rfl
    rw [h0, ha, hE]
    rfl
  · intro ha hb
    rw [h0, ha, hb]
    rfl
  · intro x
    exact scanWalk_fst_spec env x
  · intro x
    exact scanWalk_snd_spec env x

/-- The C7 witness environment: a call to the banned name `eval` and an
added import of the banned module `socket`. -/
def c7env : ScanEnv :=
  { parseOk := true,
    nodes := [PyNode.callNamed (some (cp "eval")), PyNode.importStmt [cp "socket"]],
    bannedModules := [cp "socket"], restrictedModules := [],
    bannedCalls := [cp "eval"], targetName := cp "t.py" }

/-- C7 witness: a file calling a banned function and importing a banned
module fails the scan with the sorted unique banned items listed. -/
theorem claim_C7_witness :
    cmd_scan_tests c7env =
      ScanOutcome.failIncident
        (JValue.jobj
          [(cp "violations",
            JValue.jarr [JValue.jstr (cp "Call:eval"), JValue.jstr (cp "socket")]),
           (cp "file", JValue.jstr (cp "t.py"))])
        [cp "Call:eval", cp "socket"] := by
  have h := (claim_C7_scan_tests c7env rfl).1 (by decide)
  exact h.1.trans rfl

end AIToolkit
